import Mathlib

/-! # ZIPPED proxy (`src/proxy.js`): shallow embedding and verified properties

The whole program is the single function `exports.handler`.  It is embedded as
the pure function `Proxy.handler`, parameterised by the two platform services
it calls: the WHATWG URL parser (`new URL(raw)`) and the outbound `fetch`.

JavaScript strings are modelled as lists of characters (`Str`).  The regular
expressions of the source are embedded as data (`Regex`) that is run by a
small backtracking matcher following the ECMAScript matching rules for the
constructs that occur in `proxy.js`.
-/

namespace Proxy

/-- A JavaScript string, as the sequence of its characters.  The patterns of
`proxy.js` carry no `u` flag and so work on UTF-16 code units; every literal
character in them is ASCII and every class (`[\s\S]`, `[^>]`, `["']`) treats
the two halves of a surrogate pair alike, so matching by character and
matching by code unit select the same text. -/
abbrev Str := List Char

/-! ## String primitives used by the handler -/

/-- Characters removed by `String.prototype.trim`: ECMAScript `WhiteSpace`
and `LineTerminator`. -/
def isJsWhiteSpace (c : Char) : Bool :=
  let n := c.toNat
  n == 0x9 || n == 0xA || n == 0xB || n == 0xC || n == 0xD || n == 0x20 ||
  n == 0xA0 || n == 0x1680 || (0x2000 ≤ n && n ≤ 0x200A) ||
  n == 0x2028 || n == 0x2029 || n == 0x202F || n == 0x205F || n == 0x3000 ||
  n == 0xFEFF

/-- The function `String.prototype.trimStart`. -/
def trimStart (s : Str) : Str := s.dropWhile isJsWhiteSpace

/-- The function `String.prototype.trimEnd`. -/
def trimEnd (s : Str) : Str := (s.reverse.dropWhile isJsWhiteSpace).reverse

/-- The function `String.prototype.trim`. -/
def trim (s : Str) : Str := trimStart (trimEnd s)

/-- The method `s.startsWith(p)` (case-sensitive). -/
def startsWith : Str → Str → Bool
  | _, [] => true
  | [], _ :: _ => false
  | c :: s, d :: p => c == d && startsWith s p

/-- The method `s.includes(p)`: `p` occurs in `s` at some index. -/
def includes : Str → Str → Bool
  | [], p => startsWith [] p
  | c :: s, p => startsWith (c :: s) p || includes s p

/-- The call `s.replace(p, r)` with a *string* pattern `p`: only the first
occurrence of `p` is replaced.  The replacement `r` is inserted literally,
which is what JavaScript does when `r` contains no `$` (true of every
replacement text in `proxy.js`). -/
def replaceFirst (p r : Str) : Str → Str
  | [] => if p.isEmpty then r else []
  | c :: s =>
    if startsWith (c :: s) p then r ++ (c :: s).drop p.length
    else c :: replaceFirst p r s

/-! ## Regular expressions -/

/-- ECMAScript `Canonicalize` for a regex with the `i` flag and without the
`u` flag, restricted to what decides a comparison against an ASCII pattern
character: ASCII letters are upper-cased; a non-ASCII character is never
mapped onto an ASCII one, so every other character is compared as itself. -/
def canon (c : Char) : Char :=
  if 'a' ≤ c ∧ c ≤ 'z' then Char.ofNat (c.toNat - 32) else c

/-- One pattern element.  Only the constructs used in `proxy.js` occur:
a single-character matcher, `x*?`, `x*`, `x?` over a single-character
matcher `x`, and the assertion `$`. -/
inductive Item where
  | one (p : Char → Bool)
  | lazyStar (p : Char → Bool)
  | greedyStar (p : Char → Bool)
  | opt (p : Char → Bool)
  | eol

/-- A regular expression: a sequence of items, whether the pattern begins with
the assertion `^`, and whether it carries the `g` flag. -/
structure Regex where
  anchored : Bool
  items : List Item
  global : Bool

/-- Pattern character without the `i` flag. -/
def lit (c : Char) : Item := .one (fun x => x == c)

/-- Pattern character under the `i` flag. -/
def litI (c : Char) : Item := .one (fun x => canon x == canon c)

/-- The class `[\s\S]`: every character. -/
def anyChar : Char → Bool := fun _ => true

/-- The class `[^>]`. -/
def notGt : Char → Bool := fun x => x != '>'

/-- The class `["']`. -/
def quote : Char → Bool := fun x => x == Char.ofNat 34 || x == Char.ofNat 39

/-- Run `x*?` followed by the continuation `k`: the continuation is tried
first, and one more character is consumed only when it fails. -/
def runLazyStar (p : Char → Bool) (k : Str → Option Str) : Str → Option Str
  | [] => k []
  | c :: s =>
    match k (c :: s) with
    | some r => some r
    | none => if p c then runLazyStar p k s else none

/-- Run `x*` followed by the continuation `k`: as many characters as possible
are consumed first, giving them back one at a time while `k` fails. -/
def runGreedyStar (p : Char → Bool) (k : Str → Option Str) : Str → Option Str
  | [] => k []
  | c :: s =>
    if p c then
      match runGreedyStar p k s with
      | some r => some r
      | none => k (c :: s)
    else k (c :: s)

/-- Backtracking match of a sequence of items at the start of the input.
Returns the input left after the match, or `none` when there is no match
here. -/
def matchItems : List Item → Str → Option Str
  | [], s => some s
  | .one p :: rest, s =>
    match s with
    | [] => none
    | c :: t => if p c then matchItems rest t else none
  | .lazyStar p :: rest, s => runLazyStar p (matchItems rest) s
  | .greedyStar p :: rest, s => runGreedyStar p (matchItems rest) s
  | .opt p :: rest, s =>
    match s with
    | [] => matchItems rest []
    | c :: t =>
      if p c then
        match matchItems rest t with
        | some r => some r
        | none => matchItems rest (c :: t)
      else matchItems rest (c :: t)
  | .eol :: rest, s => if s.isEmpty then matchItems rest s else none

/-- Length of the match of `re` starting exactly at the head of `s`. -/
def matchLen (re : Regex) (s : Str) : Option Nat :=
  (matchItems re.items s).map (fun r => s.length - r.length)

/-- The call `s.replace(re, rep)` with a regex pattern, scanning left to
right.  `skip` counts the characters of the current match still to be dropped;
`live` tells whether a match may still start at this index (`false` after
index 0 of an anchored pattern and after the first match of a pattern without
`g`).  An empty match inserts `rep` and copies the next character, as
`lastIndex` is advanced by one.  The replacement is inserted literally (no
replacement text in `proxy.js` contains `$`). -/
def replaceScan (re : Regex) (rep : Str) : Nat → Bool → Str → Str
  | 0, true, [] =>
    match matchLen re [] with
    | some _ => rep
    | none => []
  | _, _, [] => []
  | skip + 1, live, _ :: s => replaceScan re rep skip live s
  | 0, false, c :: s => c :: replaceScan re rep 0 false s
  | 0, true, c :: s =>
    match matchLen re (c :: s) with
    | some (n + 1) => rep ++ replaceScan re rep n (re.global && !re.anchored) s
    | some 0 => rep ++ c :: replaceScan re rep 0 (re.global && !re.anchored) s
    | none => c :: replaceScan re rep 0 (!re.anchored) s

/-- The call `s.replace(re, rep)`. -/
def regexReplace (re : Regex) (rep : Str) (s : Str) : Str :=
  replaceScan re rep 0 true s

/-- Whether the items match at some index of `s` (index 0 included). -/
def matchesSomewhere (items : List Item) : Str → Bool
  | [] => (matchItems items []).isSome
  | c :: s => (matchItems items (c :: s)).isSome || matchesSomewhere items s

/-- The call `re.test(s)` for a regex without the `g` flag. -/
def regexTest (re : Regex) (s : Str) : Bool :=
  if re.anchored then (matchItems re.items s).isSome
  else matchesSomewhere re.items s

/-- The regex `/<script[\s\S]*?>[\s\S]*?<\/script>/gi` (line 41). -/
def scriptRe : Regex where
  anchored := false
  items := "<script".toList.map litI ++ [.lazyStar anyChar, litI '>', .lazyStar anyChar]
    ++ "</script>".toList.map litI
  global := true

/-- The regex
`/<meta[^>]*http-equiv=["']?Content-Security-Policy["']?[^>]*>/gi` (line 44). -/
def cspMetaRe : Regex where
  anchored := false
  items := "<meta".toList.map litI ++ [.greedyStar notGt] ++ "http-equiv=".toList.map litI
    ++ [.opt quote] ++ "Content-Security-Policy".toList.map litI
    ++ [.opt quote, .greedyStar notGt, litI '>']
  global := true

/-- The regex `/^zipped:\/\//i` (line 20). -/
def zippedRe : Regex where
  anchored := true
  items := "zipped://".toList.map litI
  global := false

/-- The regex `/^https?:$/` (line 25). -/
def protocolRe : Regex where
  anchored := true
  items := [lit 'h', lit 't', lit 't', lit 'p', .opt (fun x => x == 's'), lit ':', .eol]
  global := false

/-! ## Base64 (`buf.toString('base64')`) -/

/-- The base64 alphabet of RFC 4648, table 1. -/
def base64Alphabet : Str :=
  "ABCDEFGHIJKLMNOPQRSTUVWXYZabcdefghijklmnopqrstuvwxyz0123456789+/".toList

/-- The character that stands for the 6-bit value `i`. -/
def base64Char (i : Nat) : Char := base64Alphabet.getD i 'A'

/-- Node's `buf.toString('base64')`: three bytes give four characters; a final
group of one or two bytes is padded with `=`.  Bytes are numbers below 256. -/
def base64Encode : List Nat → Str
  | [] => []
  | [a] => [base64Char (a / 4), base64Char (a % 4 * 16), '=', '=']
  | [a, b] =>
    [base64Char (a / 4), base64Char (a % 4 * 16 + b / 16), base64Char (b % 16 * 4), '=']
  | a :: b :: c :: rest =>
    base64Char (a / 4) :: base64Char (a % 4 * 16 + b / 16)
      :: base64Char (b % 16 * 4 + c / 64) :: base64Char (c % 64) :: base64Encode rest

/-- The 6-bit value of a base64 character, `none` outside the alphabet. -/
def base64Value (c : Char) : Option Nat :=
  let i := base64Alphabet.indexOf c
  if i < 64 then some i else none

/-- Reference base64 decoder (RFC 4648, section 4), the inverse the client
applies to a body flagged `isBase64Encoded`: groups of four characters give
three bytes; a final group ending in `=` or `==` gives two bytes or one. -/
def base64Decode : Str → Option (List Nat)
  | [] => some []
  | a :: b :: c :: d :: rest =>
    match base64Value a, base64Value b with
    | some x, some y =>
      if c = '=' ∧ d = '=' ∧ rest = [] then some [(x * 4 + y / 16) % 256]
      else
        match base64Value c with
        | none => none
        | some z =>
          if d = '=' ∧ rest = [] then
            some [(x * 4 + y / 16) % 256, (y % 16 * 16 + z / 4) % 256]
          else
            match base64Value d, base64Decode rest with
            | some w, some bs =>
              some ((x * 4 + y / 16) % 256 :: (y % 16 * 16 + z / 4) % 256
                :: (z % 4 * 64 + w) % 256 :: bs)
            | _, _ => none
    | _, _ => none
  | _ => none

/-! ## The handler -/

/-- The result of `new URL(raw)`.  Only `protocol` and `href` are read; the
`protocol` getter is the scheme followed by `:` (WHATWG URL standard). -/
structure URL where
  scheme : Str
  href : Str
deriving DecidableEq

/-- The getter `target.protocol`. -/
def URL.protocol (u : URL) : Str := u.scheme ++ [':']

/-- The object `event.queryStringParameters`; only `url` is read
(`none`: the property is absent). -/
structure QueryParams where
  url : Option Str
deriving DecidableEq

/-- The incoming event (`none`: `queryStringParameters` is null or absent). -/
structure Event where
  queryStringParameters : Option QueryParams
deriving DecidableEq

/-- The object returned by the handler; `none` stands for a property that the
returned object does not have. -/
structure Response where
  statusCode : Nat
  isBase64Encoded : Option Bool
  headers : Option (List (Str × Str))
  body : Str
deriving DecidableEq

/-- One call `fetch(url, init)`: the URL and the members of `init`
(`none`: not given, so the method is the default `GET` and there is no
body). -/
structure Request where
  url : Str
  method : Option Str
  headers : List (Str × Str)
  body : Option Str
deriving DecidableEq

/-- What the handler can observe of the object `res` that `fetch` resolves to:
`res.headers.get('content-type')` (`none` for `null`), and the outcomes of
`res.text()` and `res.arrayBuffer()`, each either a value or the message of the
error it rejects with.  The upstream status is carried but never read. -/
structure FetchResponse where
  status : Nat
  contentType : Option Str
  text : Except Str Str
  arrayBuffer : Except Str (List Nat)

/-- The badge markup (line 47). -/
def badge : Str :=
  "<div style=\"position:fixed;right:8px;bottom:8px;z-index:9999;padding:6px 10px;background:rgba(0,0,0,0.6);color:white;border-radius:6px;font-size:12px;\">ZIPPED</div>".toList

/-- Line 41: `html.replace(/<script[\s\S]*?>[\s\S]*?<\/script>/gi, '')`. -/
def removeScripts (html : Str) : Str := regexReplace scriptRe [] html

/-- Line 44: `html.replace(/<meta[^>]*http-equiv=...[^>]*>/gi, '')`. -/
def removeCspMeta (html : Str) : Str := regexReplace cspMetaRe [] html

/-- Lines 48-49: the badge goes before the first `</body>`, or at the end. -/
def injectBadge (html : Str) : Str :=
  if includes html "</body>".toList then
    replaceFirst "</body>".toList (badge ++ "</body>".toList) html
  else html ++ badge

/-- Lines 38-49: the three rewrites applied to an HTML body, in order. -/
def rewriteHtml (html : Str) : Str := injectBadge (removeCspMeta (removeScripts html))

/-- A response with only `statusCode` and `body`. -/
def plain (status : Nat) (body : Str) : Response :=
  { statusCode := status, isBase64Encoded := none, headers := none, body := body }

/-- The message of the first 400 response (line 17). -/
def missingUrlMessage : Str := "Missing url parameter. Example: ?url=https://example.com".toList

/-- The catch-all response of line 69. -/
def proxyError (message : Str) : Response := plain 500 ("Proxy error: ".toList ++ message)

/-- Lines 16-20: the trimmed `url`, with a leading `zipped://` turned into
`https://`. -/
def normalise (raw : Str) : Str :=
  if startsWith raw "zipped://".toList then regexReplace zippedRe "https://".toList raw
  else raw

/-- Lines 15-16: `(qs.url || '').trim()` with `qs = event.queryStringParameters || {}`. -/
def rawUrl (event : Event) : Str :=
  trim ((event.queryStringParameters.getD { url := none }).url.getD [])

/-- Lines 28-32: the call `fetch(target.href, { headers: { 'user-agent': ... } })`. -/
def outbound (target : URL) : Request :=
  { url := target.href, method := none,
    headers := [("user-agent".toList, "ZippedProxy/1.0 (+https://example.com)".toList)],
    body := none }

/-- The function `exports.handler`.  `parseURL` is `new URL(raw)` (`none` when it
throws) and `fetch` is the global `fetch` (`Except.error m` when it rejects
with an error whose message is `m`).  The result is the returned object
together with the outbound requests made, in order. -/
def handler (parseURL : Str → Option URL) (fetch : Request → Except Str FetchResponse)
    (event : Event) : Response × List Request :=
  let raw := rawUrl event
  if raw.isEmpty then (plain 400 missingUrlMessage, [])
  else
    let raw := normalise raw
    match parseURL raw with
    | none => (plain 400 "Invalid URL".toList, [])
    | some target =>
      if !regexTest protocolRe target.protocol then
        (plain 400 "Unsupported protocol".toList, [])
      else
        match fetch (outbound target) with
        | .error m => (proxyError m, [outbound target])
        | .ok res =>
          let contentType := res.contentType.getD []
          if includes contentType "text/html".toList then
            match res.text with
            | .error m => (proxyError m, [outbound target])
            | .ok html =>
              ({ statusCode := 200, isBase64Encoded := none,
                 headers := some [("Content-Type".toList, "text/html".toList)],
                 body := rewriteHtml html }, [outbound target])
          else
            match res.arrayBuffer with
            | .error m => (proxyError m, [outbound target])
            | .ok bytes =>
              ({ statusCode := 200, isBase64Encoded := some true,
                 headers := some [("Content-Type".toList, contentType)],
                 body := base64Encode bytes }, [outbound target])

/-! ## Vocabulary of the specification -/

/-- The event whose query string carries `url = u`. -/
def eventWithUrl (u : Str) : Event := { queryStringParameters := some { url := some u } }

/-- The request passes validation (lines 15-25) and `target` is the parsed URL. -/
def Valid (parseURL : Str → Option URL) (event : Event) (target : URL) : Prop :=
  rawUrl event ≠ [] ∧ parseURL (normalise (rawUrl event)) = some target ∧
    regexTest protocolRe target.protocol = true

/-- The upstream answers the request for `target` with a response whose
content-type contains `text/html` and whose text is `html`. -/
def HtmlReply (fetch : Request → Except Str FetchResponse) (target : URL) (html : Str) : Prop :=
  ∃ res, fetch (outbound target) = .ok res ∧
    includes (res.contentType.getD []) "text/html".toList = true ∧ res.text = .ok html

/-- The upstream answers the request for `target` with a response whose
content-type does not contain `text/html` and whose bytes are `bytes`. -/
def BinaryReply (fetch : Request → Except Str FetchResponse) (target : URL)
    (bytes : List Nat) : Prop :=
  ∃ res, fetch (outbound target) = .ok res ∧
    includes (res.contentType.getD []) "text/html".toList = false ∧
    res.arrayBuffer = .ok bytes

/-- Case-insensitive `includes`: both strings are case-folded first. -/
def includesCI (s p : Str) : Bool := includes (s.map canon) (p.map canon)

/-- The method `s.endsWith(p)`. -/
def endsWith (s p : Str) : Bool := startsWith s.reverse p.reverse

/-- The text contains a complete script element: the pattern of line 41
matches at some index. -/
def hasScriptElement (s : Str) : Bool := matchesSomewhere scriptRe.items s

/-- The text contains a CSP meta tag: the pattern of line 44 matches at some
index. -/
def hasCspMeta (s : Str) : Bool := matchesSomewhere cspMetaRe.items s

/-! ## Documents with script elements -/

/-- A script element, read lexically: the opening name `o`, the attributes
`a`, the `>` that ends the opening tag, the content `c` and the closing tag
`e`. -/
structure ScriptElement where
  o : Str
  a : Str
  c : Str
  e : Str
deriving DecidableEq

/-- The characters of a script element. -/
def ScriptElement.render (s : ScriptElement) : Str :=
  s.o ++ (s.a ++ ('>' :: (s.c ++ s.e)))

/-- A script element is complete when it opens with `<script`
(case-insensitive), has no `>` among its attributes, has no `</script>`
(case-insensitive) in its content, and closes with `</script>`
(case-insensitive). -/
def ScriptElement.complete (s : ScriptElement) : Bool :=
  s.o.map canon == "<script".toList.map canon && s.a.all (fun x => x != '>') &&
    !includesCI s.c "</script>".toList && s.e.map canon == "</script>".toList.map canon

/-- The text of a document made of stretches of text, each followed by a script
element, and a final stretch of text. -/
def withScripts : List (Str × ScriptElement) → Str → Str
  | [], last => last
  | (t, s) :: d, last => t ++ (s.render ++ withScripts d last)

/-- The same document with its script elements taken out. -/
def withoutScripts : List (Str × ScriptElement) → Str → Str
  | [], last => last
  | (t, _) :: d, last => t ++ withoutScripts d last

/-- Whether somewhere in the text a CSP meta tag (a match of the pattern of
line 44) directly follows an unfinished `<script`: a `<` and at most five
letters of `script` (case-insensitive). -/
def metaFollowsOpenScript : Str → Bool
  | [] => false
  | c :: s =>
    (List.range 6).any (fun j =>
      startsWith ((c :: s).map canon) (("<script".toList.map canon).take (j + 1)) &&
        (matchItems cspMetaRe.items ((c :: s).drop (j + 1))).isSome) ||
      metaFollowsOpenScript s

/-! ## Sample environment, used to evaluate the handler on concrete inputs -/

/-- A small stand-in for `new URL`: it accepts `scheme://...` for the schemes
`https`, `http`, `file` and `ftp`, keeps the text as `href`, and rejects
everything else. -/
def sampleParseURL (raw : Str) : Option URL :=
  if startsWith raw "https://".toList then some ⟨"https".toList, raw⟩
  else if startsWith raw "http://".toList then some ⟨"http".toList, raw⟩
  else if startsWith raw "file://".toList then some ⟨"file".toList, raw⟩
  else if startsWith raw "ftp://".toList then some ⟨"ftp".toList, raw⟩
  else none

/-- An upstream that answers every request with the HTML document `html`. -/
def htmlUpstream (html : Str) : Request → Except Str FetchResponse :=
  fun _ => .ok { status := 200, contentType := some "text/html; charset=utf-8".toList,
                 text := .ok html, arrayBuffer := .ok [] }

/-- An upstream that answers every request with the bytes `bytes`, served as
`image/png`. -/
def binaryUpstream (bytes : List Nat) : Request → Except Str FetchResponse :=
  fun _ => .ok { status := 200, contentType := some "image/png".toList,
                 text := .ok [], arrayBuffer := .ok bytes }

/-- An upstream that answers every request with the response `res`. -/
def upstreamOf (res : FetchResponse) : Request → Except Str FetchResponse :=
  fun _ => .ok res

/-- An upstream whose `fetch` rejects with an error of message `message`. -/
def failingUpstream (message : Str) : Request → Except Str FetchResponse :=
  fun _ => .error message

/-- A sample document: a CSP meta tag, then the element
`<script>alert(1)</script>`, a text with a stray `<`, an upper-case script
element with attributes, and a script element whose content contains `<`. -/
def sampleDocument : List (Str × ScriptElement) :=
  [ ("<html><head><meta http-equiv=\"Content-Security-Policy\" content=\"default-src https:\"></head><body>".toList,
      ⟨"<script".toList, [], "alert(1)".toList, "</script>".toList⟩),
    ("<p>a < b</p>".toList,
      ⟨"<SCRIPT".toList, " type=text/javascript src=x.js".toList, [], "</SCRIPT>".toList⟩),
    ([], ⟨"<script".toList, " defer".toList, "if (a<b) alert(2)".toList,
      "</script>".toList⟩) ]

/-- The text that ends the sample document. -/
def sampleDocumentEnd : Str := "</body></html>".toList

/-- The sample request `?url=https://example.com/page`. -/
def sampleEvent : Event := eventWithUrl "https://example.com/page".toList

/-- The target that `sampleParseURL` gives for `sampleEvent`. -/
def sampleTarget : URL := ⟨"https".toList, "https://example.com/page".toList⟩

end Proxy

/-! # Theorems -/

namespace Proxy

/-! ## The exit branches of the handler -/

theorem handler_of_htmlReply {parseURL : Str → Option URL}
    {fetch : Request → Except Str FetchResponse} {event : Event} {target : URL} {html : Str}
    (hv : Valid parseURL event target) (hr : HtmlReply fetch target html) :
    handler parseURL fetch event =
      ({ statusCode := 200, isBase64Encoded := none,
         headers := some [("Content-Type".toList, "text/html".toList)],
         body := rewriteHtml html }, [outbound target]) := by
  obtain ⟨hraw, hparse, hproto⟩ := hv
  obtain ⟨res, hfetch, hct, htext⟩ := hr
  have hne : (rawUrl event).isEmpty = false := by
    cases h : rawUrl event with
    | nil => exact absurd h hraw
    | cons c t => rfl
  simp only [handler, hne, hparse, hproto, hfetch, hct, htext]
  rfl

theorem handler_of_binaryReply {parseURL : Str → Option URL}
    {fetch : Request → Except Str FetchResponse} {event : Event} {target : URL}
    {bytes : List Nat}
    (hv : Valid parseURL event target) (hr : BinaryReply fetch target bytes) :
    ∃ contentType : Str, handler parseURL fetch event =
      ({ statusCode := 200, isBase64Encoded := some true,
         headers := some [("Content-Type".toList, contentType)],
         body := base64Encode bytes }, [outbound target]) := by
  obtain ⟨hraw, hparse, hproto⟩ := hv
  obtain ⟨res, hfetch, hct, hbytes⟩ := hr
  have hne : (rawUrl event).isEmpty = false := by
    cases h : rawUrl event with
    | nil => exact absurd h hraw
    | cons c t => rfl
  refine ⟨res.contentType.getD [], ?_⟩
  simp only [handler, hne, hparse, hproto, hfetch, hct, hbytes]
  rfl

/-! ## Substring lemmas -/

theorem startsWith_append_self (p s : Str) : startsWith (p ++ s) p = true := by
  induction p with
  | nil => cases s <;> rfl
  | cons c p ih => simp [startsWith, ih]

theorem includes_of_startsWith {s p : Str} (h : startsWith s p = true) :
    includes s p = true := by
  cases s with
  | nil => simpa [includes] using h
  | cons c s => simp [includes, h]

theorem includes_replaceFirst (p r : Str) :
    ∀ h : Str, includes h p = true → includes (replaceFirst p r h) r = true := by
  intro h
  induction h with
  | nil =>
    intro hin
    cases p with
    | nil => simpa [replaceFirst] using includes_of_startsWith (startsWith_append_self r [])
    | cons d p => simp [includes, startsWith] at hin
  | cons c s ih =>
    intro hin
    by_cases hs : startsWith (c :: s) p = true
    · simp only [replaceFirst, hs, if_true]
      exact includes_of_startsWith (startsWith_append_self r _)
    · have hs' : startsWith (c :: s) p = false := by simpa using hs
      have hin' : includes s p = true := by simpa [includes, hs'] using hin
      have := ih hin'
      simp only [replaceFirst, hs', Bool.false_eq_true, if_false, includes, this, Bool.or_true]

theorem endsWith_append_self (s p : Str) : endsWith (s ++ p) p = true := by
  simp [endsWith, startsWith_append_self]

/-! ## Base64 -/

set_option maxRecDepth 100000 in
theorem base64Value_base64Char : ∀ i, i < 64 → base64Value (base64Char i) = some i := by
  decide

set_option maxRecDepth 100000 in
theorem base64Char_ne_pad : ∀ i, i < 64 → base64Char i ≠ '=' := by
  decide

theorem base64Decode_encode :
    ∀ bs : List Nat, (∀ x ∈ bs, x < 256) → base64Decode (base64Encode bs) = some bs := by
  intro bs
  induction bs using base64Encode.induct with
  | case1 => intro _; rfl
  | case2 a =>
    intro h
    have ha : a < 256 := h a (by simp)
    have h1 : a / 4 < 64 := by omega
    have h2 : a % 4 * 16 < 64 := by omega
    simp only [base64Encode, base64Decode, base64Value_base64Char _ h1,
      base64Value_base64Char _ h2, and_self, if_true]
    congr 2
    omega
  | case3 a b =>
    intro h
    have ha : a < 256 := h a (by simp)
    have hb : b < 256 := h b (by simp)
    have h1 : a / 4 < 64 := by omega
    have h2 : a % 4 * 16 + b / 16 < 64 := by omega
    have h3 : b % 16 * 4 < 64 := by omega
    simp only [base64Encode, base64Decode, base64Value_base64Char _ h1,
      base64Value_base64Char _ h2, base64Value_base64Char _ h3, base64Char_ne_pad _ h3,
      and_self, and_true, false_and, if_true, if_false]
    congr 2
    · omega
    · congr 1; omega
  | case4 a b c rest ih =>
    intro h
    have ha : a < 256 := h a (by simp)
    have hb : b < 256 := h b (by simp)
    have hc : c < 256 := h c (by simp)
    have hrest : ∀ x ∈ rest, x < 256 := fun x hx => h x (by simp [hx])
    have h1 : a / 4 < 64 := by omega
    have h2 : a % 4 * 16 + b / 16 < 64 := by omega
    have h3 : b % 16 * 4 + c / 64 < 64 := by omega
    have h4 : c % 64 < 64 := by omega
    simp only [base64Encode, base64Decode, base64Value_base64Char _ h1,
      base64Value_base64Char _ h2, base64Value_base64Char _ h3, base64Value_base64Char _ h4,
      base64Char_ne_pad _ h3, base64Char_ne_pad _ h4, ih hrest,
      and_self, and_true, false_and, if_true, if_false]
    congr 2
    · omega
    · congr 1
      · omega
      · congr 1; omega

/-! ## Trimming and scheme normalisation -/

theorem dropWhile_append_stop (f : Char → Bool) (a b : Str) (c : Char)
    (hc : f c = false) : (a ++ c :: b).dropWhile f = a.dropWhile f ++ c :: b := by
  induction a with
  | nil => simp [List.dropWhile, hc]
  | cons x a ih =>
    by_cases hx : f x = true
    · simp [List.dropWhile, hx, ih]
    · simp [List.dropWhile, hx]

theorem trim_append_of_solid (p s : Str) (c d : Char) (p1 p2 : Str)
    (hhead : p = c :: p1) (hlast : p.reverse = d :: p2)
    (hc : isJsWhiteSpace c = false) (hd : isJsWhiteSpace d = false) :
    trim (p ++ s) = p ++ trimEnd s := by
  have h1 : trimEnd (p ++ s) = p ++ trimEnd s := by
    unfold trimEnd
    rw [List.reverse_append, hlast, dropWhile_append_stop _ _ _ _ hd, List.reverse_append,
      ← hlast, List.reverse_reverse]
  unfold trim trimStart
  rw [h1, hhead]
  simp [List.dropWhile, hc]

theorem replaceScan_dead (re : Regex) (rep : Str) (s : Str) :
    replaceScan re rep 0 false s = s := by
  induction s with
  | nil => rfl
  | cons c s ih => simp [replaceScan, ih]

theorem normalise_zipped (x : Str) :
    normalise ("zipped://".toList ++ x) = "https://".toList ++ x := by
  have hs : startsWith ("zipped://".toList ++ x) "zipped://".toList = true :=
    startsWith_append_self _ _
  have hm : matchLen zippedRe ("zipped://".toList ++ x) = some 9 := by
    simp [matchLen, zippedRe, matchItems, litI]
    omega
  have hx : "zipped://".toList ++ x = 'z' :: ("ipped://".toList ++ x) := rfl
  have hskip : replaceScan zippedRe "https://".toList 8 (zippedRe.global && !zippedRe.anchored)
      ("ipped://".toList ++ x) = replaceScan zippedRe "https://".toList 0 false x := rfl
  rw [normalise, if_pos hs, regexReplace, hx, replaceScan, ← hx, hm]
  simp only [hskip, replaceScan_dead]

theorem normalise_https (x : Str) :
    normalise ("https://".toList ++ x) = "https://".toList ++ x := by
  have hs : startsWith ("https://".toList ++ x) "zipped://".toList = false := by
    simp [startsWith]
  rw [normalise, hs]
  rfl

theorem rawUrl_eventWithUrl (u : Str) : rawUrl (eventWithUrl u) = trim u := rfl

theorem handler_eq_of_normalise (parseURL : Str → Option URL)
    (fetch : Request → Except Str FetchResponse) (e1 e2 : Event)
    (h1 : rawUrl e1 ≠ []) (h2 : rawUrl e2 ≠ [])
    (hn : normalise (rawUrl e1) = normalise (rawUrl e2)) :
    handler parseURL fetch e1 = handler parseURL fetch e2 := by
  have n1 : (rawUrl e1).isEmpty = false := by
    cases h : rawUrl e1 with
    | nil => exact absurd h h1
    | cons c t => rfl
  have n2 : (rawUrl e2).isEmpty = false := by
    cases h : rawUrl e2 with
    | nil => exact absurd h h2
    | cons c t => rfl
  simp only [handler, n1, n2, hn]

theorem trim_eq_nil_of_blank (u : Str) (h : ∀ c ∈ u, isJsWhiteSpace c = true) : trim u = [] := by
  have : u.reverse.dropWhile isJsWhiteSpace = [] := by
    rw [List.dropWhile_eq_nil_iff]
    intro c hc
    exact h c (List.mem_reverse.mp hc)
  simp [trim, trimStart, trimEnd, this]

theorem protocol_test (s : Str) :
    regexTest protocolRe s = true ↔ s = "http:".toList ∨ s = "https:".toList := by
  rcases s with _ | ⟨a, _ | ⟨b, _ | ⟨c, _ | ⟨d, _ | ⟨e, _ | ⟨f, _ | ⟨g, t⟩⟩⟩⟩⟩⟩⟩ <;>
    simp [regexTest, protocolRe, matchItems, lit]
  all_goals (split_ifs <;> simp_all)

theorem isEmpty_false_of_ne {s : Str} (h : s ≠ []) : s.isEmpty = false := by
  cases s with
  | nil => exact absurd rfl h
  | cons c t => rfl

theorem handler_status_of_valid {parseURL : Str → Option URL}
    (fetch : Request → Except Str FetchResponse) {event : Event} {target : URL}
    (hv : Valid parseURL event target) :
    (handler parseURL fetch event).1.statusCode = 200 ∨
      (handler parseURL fetch event).1.statusCode = 500 := by
  obtain ⟨hraw, hparse, hproto⟩ := hv
  simp only [handler, isEmpty_false_of_ne hraw, hparse, hproto]
  cases fetch (outbound target) with
  | error m => exact Or.inr rfl
  | ok res =>
    by_cases hct : includes (res.contentType.getD []) "text/html".toList = true
    · simp only [hct]
      cases res.text with
      | error m => exact Or.inr rfl
      | ok html => exact Or.inl rfl
    · simp only [hct]
      cases res.arrayBuffer with
      | error m => exact Or.inr rfl
      | ok bytes => exact Or.inl rfl

/-! ## Regex scans that find nothing, and text around a `<` -/

/-- A match of literal items under `i` needs the literal text, up to case. -/
theorem startsWith_of_matchItems_lits (l : Str) (rest : List Item) :
    ∀ (s r : Str), matchItems (l.map litI ++ rest) s = some r →
      startsWith (s.map canon) (l.map canon) = true := by
  induction l with
  | nil => intro s r _; cases s <;> rfl
  | cons d l ih =>
    intro s r h
    cases s with
    | nil => simp [matchItems, litI] at h
    | cons c t =>
      simp only [List.map_cons, List.cons_append, litI, matchItems] at h
      by_cases hc : (canon c == canon d) = true
      · rw [if_pos hc] at h
        simp only [List.map_cons, startsWith, hc, Bool.true_and]
        exact ih t r h
      · rw [if_neg hc] at h
        exact absurd h (by simp)

theorem matchesSomewhere_lits_false (l : Str) (rest : List Item) :
    ∀ s : Str, l ≠ [] → includes (s.map canon) (l.map canon) = false →
      matchesSomewhere (l.map litI ++ rest) s = false := by
  intro s hl
  induction s with
  | nil =>
    intro _
    cases l with
    | nil => exact absurd rfl hl
    | cons d l => simp [matchesSomewhere, matchItems, litI]
  | cons c s ih =>
    intro h
    simp only [List.map_cons, includes, Bool.or_eq_false_iff] at h
    simp only [matchesSomewhere, Bool.or_eq_false_iff, ih h.2, and_true]
    cases hm : matchItems (l.map litI ++ rest) (c :: s) with
    | none => rfl
    | some r =>
      have := startsWith_of_matchItems_lits l rest (c :: s) r hm
      simp only [List.map_cons] at this
      rw [this] at h
      exact absurd h.1 (by simp)

theorem replaceScan_noMatch (re : Regex) (rep : Str) (hanch : re.anchored = false) :
    ∀ s : Str, matchesSomewhere re.items s = false → replaceScan re rep 0 true s = s := by
  intro s
  induction s with
  | nil =>
    intro h
    cases hq : matchItems re.items [] with
    | none => simp [replaceScan, matchLen, hq]
    | some r => simp [matchesSomewhere, hq] at h
  | cons c s ih =>
    intro h
    simp only [matchesSomewhere, Bool.or_eq_false_iff] at h
    have hm : matchLen re (c :: s) = none := by
      cases hq : matchItems re.items (c :: s) with
      | none => simp [matchLen, hq]
      | some r => rw [hq] at h; exact absurd h.1 (by simp)
    simp only [replaceScan, hm, hanch, Bool.not_false, ih h.2]


theorem startsWith_append_right {t p : Str} (z : Str) (h : startsWith t p = true) :
    startsWith (t ++ z) p = true := by
  induction p generalizing t with
  | nil => cases h' : t ++ z <;> rfl
  | cons d p ih =>
    cases t with
    | nil => simp [startsWith] at h
    | cons c t =>
      simp only [startsWith, Bool.and_eq_true] at h
      simp only [List.cons_append, startsWith, h.1, Bool.true_and]
      exact ih h.2

/-- A text that does not contain the character `a` cannot begin before an
`a` and run past it. -/
theorem startsWith_of_append_stop (a : Char) (q : Str) (ha : a ∉ q) :
    ∀ t y : Str, startsWith (t ++ a :: y) q = true → startsWith t q = true := by
  induction q with
  | nil => intro t y _; cases t <;> rfl
  | cons d q ih =>
    intro t y h
    have hd : (a == d) = false := by
      simp only [beq_eq_false_iff_ne, ne_eq]
      intro e
      exact ha (by simp [e])
    cases t with
    | nil => simp [startsWith, hd] at h
    | cons c t =>
      simp only [List.cons_append, startsWith, Bool.and_eq_true] at h
      simp only [startsWith, h.1, Bool.true_and]
      exact ih (fun hm => ha (List.mem_cons_of_mem _ hm)) t y h.2

theorem startsWith_cons_append_stop (a : Char) (q : Str) (ha : a ∉ q) (c : Char) (t y : Str) :
    startsWith (c :: t ++ a :: y) (a :: q) = startsWith (c :: t) (a :: q) := by
  cases hc : c == a with
  | false => simp [startsWith, hc]
  | true =>
    simp only [List.cons_append, startsWith, hc, Bool.true_and]
    cases h : startsWith (t ++ a :: y) q with
    | true => exact (startsWith_of_append_stop a q ha t y h).symm
    | false =>
      cases h2 : startsWith t q with
      | false => rfl
      | true => rw [startsWith_append_right _ h2] at h; exact h.symm

/-- Occurrences of a text `a :: q` whose only `a` is its first character, in a
concatenation whose right part begins with `a`: each lies in one of the parts. -/
theorem includes_append_stop (a : Char) (q : Str) (ha : a ∉ q) (y : Str) :
    ∀ x : Str, includes (x ++ a :: y) (a :: q) =
      (includes x (a :: q) || includes (a :: y) (a :: q)) := by
  intro x
  induction x with
  | nil => simp [includes, startsWith]
  | cons c x ih =>
    have h1 := startsWith_cons_append_stop a q ha c x y
    show (startsWith (c :: x ++ a :: y) (a :: q) || includes (x ++ a :: y) (a :: q)) =
      ((startsWith (c :: x) (a :: q) || includes x (a :: q)) || includes (a :: y) (a :: q))
    rw [h1, ih, Bool.or_assoc]

theorem includes_append_left {x p : Str} (y : Str) (h : includes x p = true) :
    includes (x ++ y) p = true := by
  induction x with
  | nil =>
    cases p with
    | nil => exact includes_of_startsWith (by cases y <;> rfl)
    | cons d p => simp [includes, startsWith] at h
  | cons c x ih =>
    simp only [includes, Bool.or_eq_true] at h
    simp only [List.cons_append, includes, Bool.or_eq_true]
    rcases h with h | h
    · exact Or.inl (startsWith_append_right (t := c :: x) y h)
    · exact Or.inr (ih h)

theorem includes_append_right (x : Str) {y p : Str} (h : includes y p = true) :
    includes (x ++ y) p = true := by
  induction x with
  | nil => simpa using h
  | cons c x ih => simp [includes, ih]

theorem eq_append_of_startsWith :
    ∀ (s p : Str), startsWith s p = true → s = p ++ s.drop p.length := by
  intro s p
  induction p generalizing s with
  | nil => intro _; rfl
  | cons d p ih =>
    intro h
    cases s with
    | nil => simp [startsWith] at h
    | cons c s =>
      simp only [startsWith, Bool.and_eq_true, beq_iff_eq] at h
      simp only [List.length_cons, List.drop_succ_cons, List.cons_append, h.1]
      congr 1
      exact ih s h.2

/-- The string replace of line 48, as a splice at an occurrence of `p`. -/
theorem replaceFirst_splice (p r : Str) :
    ∀ h : Str, includes h p = true →
      ∃ a b, h = a ++ p ++ b ∧ replaceFirst p r h = a ++ r ++ b := by
  intro h
  induction h with
  | nil =>
    intro hin
    cases p with
    | nil => exact ⟨[], [], rfl, by simp [replaceFirst]⟩
    | cons d p => simp [includes, startsWith] at hin
  | cons c s ih =>
    intro hin
    by_cases hs : startsWith (c :: s) p = true
    · refine ⟨[], (c :: s).drop p.length, ?_, ?_⟩
      · simpa using eq_append_of_startsWith (c :: s) p hs
      · simp only [replaceFirst, hs, if_true, List.nil_append]
    · have hs' : startsWith (c :: s) p = false := by simpa using hs
      have hin' : includes s p = true := by simpa [includes, hs'] using hin
      obtain ⟨a, b, hab, hrep⟩ := ih hin'
      refine ⟨c :: a, b, by simp [hab], ?_⟩
      simp only [replaceFirst, hs', Bool.false_eq_true, if_false, hrep, List.cons_append]


theorem scriptRe_items :
    scriptRe.items = "<script".toList.map litI ++
      ([.lazyStar anyChar, litI '>', .lazyStar anyChar] ++ "</script>".toList.map litI) := by
  simp [scriptRe]

theorem canon_script_open : "<script".toList.map canon = '<' :: "SCRIPT".toList := by
  decide

theorem lt_not_mem_script : '<' ∉ "SCRIPT".toList := by decide

theorem matchLen_single_script (post : Str) :
    matchLen scriptRe ("<script>alert(1)</script>".toList ++ post) = some 25 := by
  have h : matchItems scriptRe.items ("<script>alert(1)</script>".toList ++ post) = some post :=
    rfl
  have hl : ("<script>alert(1)</script>".toList ++ post).length = post.length + 25 := by
    rw [List.length_append, Nat.add_comm]; rfl
  rw [matchLen, h, Option.map_some', hl]
  congr 1
  omega



theorem includes_cons (c : Char) (s p : Str) :
    includes (c :: s) p = (startsWith (c :: s) p || includes s p) := rfl

theorem canon_lt : canon '<' = '<' := by decide

/-- No script element starts at a position where the text up to the next
`<` does not begin with `<script`. -/
theorem no_script_match_before (c : Char) (pre z : Str)
    (h : startsWith ((c :: pre).map canon) ('<' :: "SCRIPT".toList) = false) :
    matchItems scriptRe.items (c :: pre ++ '<' :: z) = none := by
  cases hq : matchItems scriptRe.items (c :: pre ++ '<' :: z) with
  | none => rfl
  | some r =>
    exfalso
    rw [scriptRe_items] at hq
    have h1 := startsWith_of_matchItems_lits _ _ _ _ hq
    rw [canon_script_open, List.map_append, List.map_cons, List.map_cons, canon_lt,
      startsWith_cons_append_stop '<' _ lt_not_mem_script, ← List.map_cons, h] at h1
    exact absurd h1 (by decide)

/-- Line 41 on a document with a single script element `<script>alert(1)</script>`
and no other `<script`: exactly that element is removed. -/
theorem removeScripts_single (pre post : Str)
    (hno : includesCI (pre ++ post) "<script".toList = false) :
    removeScripts (pre ++ "<script>alert(1)</script>".toList ++ post) = pre ++ post := by
  unfold includesCI at hno
  rw [canon_script_open] at hno
  have hpost : includes (post.map canon) ('<' :: "SCRIPT".toList) = false := by
    cases h : includes (post.map canon) ('<' :: "SCRIPT".toList) with
    | false => rfl
    | true =>
      rw [List.map_append, includes_append_right _ h] at hno
      exact absurd hno (by decide)
  have hscanPost : replaceScan scriptRe [] 0 true post = post := by
    apply replaceScan_noMatch scriptRe [] rfl
    rw [scriptRe_items]
    apply matchesSomewhere_lits_false _ _ post (by decide)
    rw [canon_script_open]
    exact hpost
  have hskip : replaceScan scriptRe [] 24 (scriptRe.global && !scriptRe.anchored)
      ("script>alert(1)</script>".toList ++ post) = replaceScan scriptRe [] 0 true post := rfl
  have hx : "<script>alert(1)</script>".toList ++ post
      = '<' :: ("script>alert(1)</script>".toList ++ post) := rfl
  have hmid : replaceScan scriptRe [] 0 true ('<' :: ("script>alert(1)</script>".toList ++ post))
      = post := by
    rw [replaceScan, ← hx, matchLen_single_script]
    show [] ++ replaceScan scriptRe [] 24 (scriptRe.global && !scriptRe.anchored)
      ("script>alert(1)</script>".toList ++ post) = post
    rw [hskip, hscanPost, List.nil_append]
  have hpre : ∀ pre : Str,
      includes ((pre ++ post).map canon) ('<' :: "SCRIPT".toList) = false →
      replaceScan scriptRe [] 0 true (pre ++ '<' :: ("script>alert(1)</script>".toList ++ post))
        = pre ++ post := by
    intro pre
    induction pre with
    | nil => intro _; exact hmid
    | cons c pre ih =>
      intro h
      rw [List.cons_append, List.map_cons, includes_cons, Bool.or_eq_false_iff] at h
      have h0 : startsWith ((c :: pre).map canon) ('<' :: "SCRIPT".toList) = false := by
        cases h2 : startsWith ((c :: pre).map canon) ('<' :: "SCRIPT".toList) with
        | false => rfl
        | true =>
          have h3 := startsWith_append_right (post.map canon) h2
          rw [List.map_cons, List.cons_append, ← List.map_append, h.1] at h3
          exact absurd h3 (by decide)
      have hq := no_script_match_before c pre ("script>alert(1)</script>".toList ++ post) h0
      have hm : matchLen scriptRe
          (c :: (pre ++ '<' :: ("script>alert(1)</script>".toList ++ post))) = none := by
        rw [matchLen, ← List.cons_append, hq]; rfl
      rw [List.cons_append, replaceScan, hm]
      show c :: replaceScan scriptRe [] 0 true
        (pre ++ '<' :: ("script>alert(1)</script>".toList ++ post)) = c :: (pre ++ post)
      rw [ih h.2]
  unfold removeScripts regexReplace
  rw [List.append_assoc, hx]
  exact hpre pre hno


theorem includes_false_of_append {x y p : Str} (h : includes (x ++ y) p = false) :
    includes x p = false ∧ includes y p = false := by
  constructor
  · cases hx : includes x p with
    | false => rfl
    | true => rw [includes_append_left y hx] at h; exact absurd h (by decide)
  · cases hy : includes y p with
    | false => rfl
    | true => rw [includes_append_right x hy] at h; exact absurd h (by decide)

set_option maxRecDepth 100000 in
theorem badge_has_no_script :
    includes (badge.map canon) ('<' :: "SCRIPT".toList) = false := by
  decide

/-- Placing the badge (lines 46-49) never creates a `<script`. -/
theorem includesCI_injectBadge (h : Str) (hno : includesCI h "<script".toList = false) :
    includesCI (injectBadge h) "<script".toList = false := by
  unfold includesCI at *
  rw [canon_script_open] at *
  obtain ⟨bt, hbt⟩ : ∃ bt, badge.map canon = '<' :: bt := ⟨_, rfl⟩
  have hb := badge_has_no_script
  unfold injectBadge
  by_cases hbody : includes h "</body>".toList = true
  · rw [if_pos hbody]
    obtain ⟨a, b, hab, hrep⟩ := replaceFirst_splice "</body>".toList
      (badge ++ "</body>".toList) h hbody
    obtain ⟨ct, hct⟩ : ∃ ct, "</body>".toList.map canon = '<' :: ct := ⟨_, rfl⟩
    rw [hab, List.append_assoc, List.map_append] at hno
    obtain ⟨ha, hrest⟩ := includes_false_of_append hno
    rw [hrep, List.append_assoc, List.append_assoc, List.map_append, List.map_append, hbt,
      List.cons_append, includes_append_stop '<' _ lt_not_mem_script, ha, Bool.false_or,
      ← List.cons_append, ← hbt]
    rw [List.map_append, hct, List.cons_append] at hrest ⊢
    rw [includes_append_stop '<' _ lt_not_mem_script, hb, hrest]
    rfl
  · rw [if_neg hbody, List.map_append, hbt, includes_append_stop '<' _ lt_not_mem_script,
      hno, ← hbt, hb]
    rfl

/-- Line 44 leaves a text without CSP meta tag as it is. -/
theorem removeCspMeta_noMatch (s : Str) (h : hasCspMeta s = false) :
    removeCspMeta s = s :=
  replaceScan_noMatch cspMetaRe [] rfl s h

/-! ## C1-C3: script and CSP-meta removal -/

set_option maxRecDepth 100000 in
/-- C1 as stated fails: the upstream HTML body
`<script>alert(1)</script><p>t</p><script src=x.js>` contains
`<script>alert(1)</script>`; line 41 removes that element, but the pattern
matches whole elements only, so the opening tag that has no `</script>` after
it stays: the returned body is `<p>t</p><script src=x.js>` followed by the
badge and contains `<script`. -/
theorem c1_counterexample :
    includes "<script>alert(1)</script><p>t</p><script src=x.js>".toList
        "<script>alert(1)</script>".toList = true ∧
      (handler sampleParseURL
          (htmlUpstream "<script>alert(1)</script><p>t</p><script src=x.js>".toList)
          sampleEvent).1.body = "<p>t</p><script src=x.js>".toList ++ badge ∧
      includesCI (handler sampleParseURL
          (htmlUpstream "<script>alert(1)</script><p>t</p><script src=x.js>".toList)
          sampleEvent).1.body "<script".toList = true := by
  decide

set_option maxRecDepth 100000 in
/-- C2, evaluated at a failing input.  For the upstream HTML body
`<p>a</p><scr<script></script>ipt src=//evil.example/x.js></script>` the body
returned by the handler is `<p>a</p><script src=//evil.example/x.js></script>`
followed by the badge: a complete script element remains after the rewrite. -/
theorem c2_script_element_remains :
    (handler sampleParseURL
        (htmlUpstream "<p>a</p><scr<script></script>ipt src=//evil.example/x.js></script>".toList)
        sampleEvent).1.body
      = "<p>a</p><script src=//evil.example/x.js></script>".toList ++ badge ∧
    hasScriptElement (handler sampleParseURL
        (htmlUpstream "<p>a</p><scr<script></script>ipt src=//evil.example/x.js></script>".toList)
        sampleEvent).1.body = true := by
  decide

set_option maxRecDepth 100000 in
/-- C3, evaluated at a failing input.  The upstream HTML body
`<me<meta http-equiv=Content-Security-Policy>ta http-equiv=Content-Security-Policy content=x>`
contains a CSP meta tag; the single pass of line 44 removes it and the text
around it closes up into another one, so the body returned by the handler is
`<meta http-equiv=Content-Security-Policy content=x>` followed by the badge
and still contains a CSP meta tag. -/
theorem c3_csp_meta_remains :
    hasCspMeta
        "<me<meta http-equiv=Content-Security-Policy>ta http-equiv=Content-Security-Policy content=x>".toList
      = true ∧
    (handler sampleParseURL
        (htmlUpstream
          "<me<meta http-equiv=Content-Security-Policy>ta http-equiv=Content-Security-Policy content=x>".toList)
        sampleEvent).1.body
      = "<meta http-equiv=Content-Security-Policy content=x>".toList ++ badge ∧
    hasCspMeta (handler sampleParseURL
        (htmlUpstream
          "<me<meta http-equiv=Content-Security-Policy>ta http-equiv=Content-Security-Policy content=x>".toList)
        sampleEvent).1.body = true := by
  decide

/-! ## C4, C5: placement of the badge -/

set_option maxRecDepth 100000 in
/-- C4 as stated fails: the upstream HTML body
`<p>x</p><script>/* </body> */</script>` contains `</body>`, but only inside
a script element, which line 41 removes before the badge is placed; the
returned body is `<p>x</p>` followed by the badge and contains no badge
followed by `</body>`. -/
theorem c4_counterexample :
    includes "<p>x</p><script>/* </body> */</script>".toList "</body>".toList = true ∧
    (handler sampleParseURL (htmlUpstream "<p>x</p><script>/* </body> */</script>".toList)
        sampleEvent).1.body = "<p>x</p>".toList ++ badge ∧
    includes (handler sampleParseURL
        (htmlUpstream "<p>x</p><script>/* </body> */</script>".toList) sampleEvent).1.body
      (badge ++ "</body>".toList) = false := by
  decide

/-- C4, amended: for every request that passes validation and every upstream
HTML body whose text still contains `</body>` after script removal and
CSP-meta removal, the body returned by the handler contains the badge markup
immediately followed by `</body>`. -/
theorem c4_badge_before_body_close (parseURL : Str → Option URL)
    (fetch : Request → Except Str FetchResponse) (event : Event) (target : URL) (html : Str)
    (hv : Valid parseURL event target) (hr : HtmlReply fetch target html)
    (hbody : includes (removeCspMeta (removeScripts html)) "</body>".toList = true) :
    includes (handler parseURL fetch event).1.body (badge ++ "</body>".toList) = true := by
  rw [handler_of_htmlReply hv hr]
  simp only [rewriteHtml, injectBadge, hbody, if_true]
  exact includes_replaceFirst _ _ _ hbody

set_option maxRecDepth 100000 in
/-- Witness for the amended C4: the document
`<html><body><p>hi</p></body></html>` served for `?url=https://example.com/page`. -/
theorem c4_badge_before_body_close_witness :
    Valid sampleParseURL sampleEvent sampleTarget ∧
    HtmlReply (htmlUpstream "<html><body><p>hi</p></body></html>".toList) sampleTarget
      "<html><body><p>hi</p></body></html>".toList ∧
    includes (removeCspMeta (removeScripts "<html><body><p>hi</p></body></html>".toList))
      "</body>".toList = true ∧
    includes (handler sampleParseURL
        (htmlUpstream "<html><body><p>hi</p></body></html>".toList) sampleEvent).1.body
      (badge ++ "</body>".toList) = true :=
  ⟨by unfold Valid; decide, ⟨_, rfl, by decide, rfl⟩, by decide,
    c4_badge_before_body_close sampleParseURL
      (htmlUpstream "<html><body><p>hi</p></body></html>".toList) sampleEvent sampleTarget
      "<html><body><p>hi</p></body></html>".toList
      (by unfold Valid; decide) ⟨_, rfl, by decide, rfl⟩ (by decide)⟩

set_option maxRecDepth 100000 in
/-- C5 as stated fails: the upstream HTML body `<p>x</p></bo<script></script>dy>`
does not contain `</body>`, but removing the script element of line 41 closes
the text up into `</body>`; the returned body is `<p>x</p>`, the badge, then
`</body>`, and does not end with the badge. -/
theorem c5_counterexample :
    includes "<p>x</p></bo<script></script>dy>".toList "</body>".toList = false ∧
    (handler sampleParseURL (htmlUpstream "<p>x</p></bo<script></script>dy>".toList)
        sampleEvent).1.body = "<p>x</p>".toList ++ badge ++ "</body>".toList ∧
    endsWith (handler sampleParseURL
        (htmlUpstream "<p>x</p></bo<script></script>dy>".toList) sampleEvent).1.body
      badge = false := by
  decide

/-- C5, amended: for every request that passes validation and every upstream
HTML body whose text contains no `</body>` after script removal and CSP-meta
removal, the body returned by the handler is that text followed by the badge
markup, so it ends with the badge. -/
theorem c5_badge_appended (parseURL : Str → Option URL)
    (fetch : Request → Except Str FetchResponse) (event : Event) (target : URL) (html : Str)
    (hv : Valid parseURL event target) (hr : HtmlReply fetch target html)
    (hbody : includes (removeCspMeta (removeScripts html)) "</body>".toList = false) :
    (handler parseURL fetch event).1.body = removeCspMeta (removeScripts html) ++ badge ∧
      endsWith (handler parseURL fetch event).1.body badge = true := by
  rw [handler_of_htmlReply hv hr]
  simp only [rewriteHtml, injectBadge, hbody, Bool.false_eq_true, if_false, true_and]
  exact endsWith_append_self _ _

set_option maxRecDepth 100000 in
/-- Witness for the amended C5: the fragment `<p>hi</p>` served for
`?url=https://example.com/page`. -/
theorem c5_badge_appended_witness :
    Valid sampleParseURL sampleEvent sampleTarget ∧
    HtmlReply (htmlUpstream "<p>hi</p>".toList) sampleTarget "<p>hi</p>".toList ∧
    includes (removeCspMeta (removeScripts "<p>hi</p>".toList)) "</body>".toList = false ∧
    ((handler sampleParseURL (htmlUpstream "<p>hi</p>".toList) sampleEvent).1.body
        = removeCspMeta (removeScripts "<p>hi</p>".toList) ++ badge ∧
      endsWith (handler sampleParseURL (htmlUpstream "<p>hi</p>".toList) sampleEvent).1.body
        badge = true) :=
  ⟨by unfold Valid; decide, ⟨_, rfl, by decide, rfl⟩, by decide,
    c5_badge_appended sampleParseURL (htmlUpstream "<p>hi</p>".toList) sampleEvent
      sampleTarget "<p>hi</p>".toList (by unfold Valid; decide) ⟨_, rfl, by decide, rfl⟩
      (by decide)⟩

/-! ## C6: base64 round trip -/

/-- C6: for every request that passes validation and every upstream response
whose content-type does not contain `text/html`, carrying the bytes `bytes`,
the returned body is flagged as base64 and base64-decoding it yields exactly
`bytes` (whatever their number, zero included). -/
theorem c6_base64_round_trip (parseURL : Str → Option URL)
    (fetch : Request → Except Str FetchResponse) (event : Event) (target : URL)
    (bytes : List Nat) (hv : Valid parseURL event target)
    (hr : BinaryReply fetch target bytes) (hbytes : ∀ x ∈ bytes, x < 256) :
    (handler parseURL fetch event).1.isBase64Encoded = some true ∧
      base64Decode (handler parseURL fetch event).1.body = some bytes := by
  obtain ⟨contentType, h⟩ := handler_of_binaryReply hv hr
  rw [h]
  exact ⟨rfl, base64Decode_encode bytes hbytes⟩

set_option maxRecDepth 100000 in
/-- Witness for C6: five bytes served as `image/png`. -/
theorem c6_base64_round_trip_witness :
    Valid sampleParseURL sampleEvent sampleTarget ∧
    BinaryReply (binaryUpstream [137, 80, 78, 71, 13]) sampleTarget [137, 80, 78, 71, 13] ∧
    (∀ x ∈ [137, 80, 78, 71, 13], x < 256) ∧
    ((handler sampleParseURL (binaryUpstream [137, 80, 78, 71, 13])
        sampleEvent).1.isBase64Encoded = some true ∧
      base64Decode (handler sampleParseURL (binaryUpstream [137, 80, 78, 71, 13])
        sampleEvent).1.body = some [137, 80, 78, 71, 13]) :=
  ⟨by unfold Valid; decide, ⟨_, rfl, by decide, rfl⟩, by decide,
    c6_base64_round_trip sampleParseURL (binaryUpstream [137, 80, 78, 71, 13]) sampleEvent
      sampleTarget [137, 80, 78, 71, 13] (by unfold Valid; decide) ⟨_, rfl, by decide, rfl⟩
      (by decide)⟩

/-! ## C7-C10: validation of the `url` parameter -/

/-- C7: for every string `s`, every URL parser and every upstream, the handler
returns the same response and makes the same outbound requests for
`url = zipped://` followed by `s` as for `url = https://` followed by `s`. -/
theorem c7_zipped_scheme_transparent (parseURL : Str → Option URL)
    (fetch : Request → Except Str FetchResponse) (s : Str) :
    handler parseURL fetch (eventWithUrl ("zipped://".toList ++ s)) =
      handler parseURL fetch (eventWithUrl ("https://".toList ++ s)) := by
  have hz : trim ("zipped://".toList ++ s) = "zipped://".toList ++ trimEnd s :=
    trim_append_of_solid _ s 'z' '/' _ _ rfl rfl (by decide) (by decide)
  have hh : trim ("https://".toList ++ s) = "https://".toList ++ trimEnd s :=
    trim_append_of_solid _ s 'h' '/' _ _ rfl rfl (by decide) (by decide)
  apply handler_eq_of_normalise
  · rw [rawUrl_eventWithUrl, hz]; exact List.cons_ne_nil _ _
  · rw [rawUrl_eventWithUrl, hh]; exact List.cons_ne_nil _ _
  · rw [rawUrl_eventWithUrl, rawUrl_eventWithUrl, hz, hh, normalise_zipped, normalise_https]

/-- C8: when the query parameters are absent, or `url` is absent, or `url` is
empty or made of whitespace only, the handler returns status 400 with body
exactly `Missing url parameter. Example: ?url=https://example.com`, no
headers, and makes no outbound request. -/
theorem c8_missing_url (parseURL : Str → Option URL)
    (fetch : Request → Except Str FetchResponse) (event : Event)
    (h : event.queryStringParameters = none ∨
      ∃ q, event.queryStringParameters = some q ∧
        (q.url = none ∨ ∃ u, q.url = some u ∧ ∀ c ∈ u, isJsWhiteSpace c = true)) :
    handler parseURL fetch event =
      ({ statusCode := 400, isBase64Encoded := none, headers := none,
         body := "Missing url parameter. Example: ?url=https://example.com".toList }, []) := by
  have hraw : rawUrl event = [] := by
    rcases h with h | ⟨q, hq, h | ⟨u, hu, hws⟩⟩
    · simp [rawUrl, h, trim, trimStart, trimEnd]
    · simp [rawUrl, hq, h, trim, trimStart, trimEnd]
    · simp only [rawUrl, hq, hu, Option.getD_some]
      exact trim_eq_nil_of_blank u hws
  simp only [handler, hraw, List.isEmpty_nil, if_true]
  rfl

/-- Witness for C8: `?url=` followed by three spaces. -/
theorem c8_missing_url_witness :
    (∀ c ∈ "   ".toList, isJsWhiteSpace c = true) ∧
    handler sampleParseURL (htmlUpstream "<p>hi</p>".toList) (eventWithUrl "   ".toList) =
      ({ statusCode := 400, isBase64Encoded := none, headers := none,
         body := "Missing url parameter. Example: ?url=https://example.com".toList }, []) :=
  ⟨by decide,
    c8_missing_url sampleParseURL (htmlUpstream "<p>hi</p>".toList)
      (eventWithUrl "   ".toList) (Or.inr ⟨_, rfl, Or.inr ⟨_, rfl, by decide⟩⟩)⟩

/-- C9: for every `url` that is non-empty after trimming and that the URL
parser rejects (after `zipped://` normalisation), the handler returns status
400 with body exactly `Invalid URL`, no headers, and makes no outbound
request. -/
theorem c9_invalid_url (parseURL : Str → Option URL)
    (fetch : Request → Except Str FetchResponse) (u : Str)
    (hne : trim u ≠ []) (hparse : parseURL (normalise (trim u)) = none) :
    handler parseURL fetch (eventWithUrl u) =
      ({ statusCode := 400, isBase64Encoded := none, headers := none,
         body := "Invalid URL".toList }, []) := by
  simp only [handler, rawUrl_eventWithUrl, isEmpty_false_of_ne hne, hparse]
  rfl

set_option maxRecDepth 100000 in
/-- Witness for C9: `?url=not a url`. -/
theorem c9_invalid_url_witness :
    trim "not a url".toList ≠ [] ∧
    sampleParseURL (normalise (trim "not a url".toList)) = none ∧
    handler sampleParseURL (htmlUpstream "<p>hi</p>".toList) (eventWithUrl "not a url".toList) =
      ({ statusCode := 400, isBase64Encoded := none, headers := none,
         body := "Invalid URL".toList }, []) :=
  ⟨by decide, by decide,
    c9_invalid_url sampleParseURL (htmlUpstream "<p>hi</p>".toList) "not a url".toList
      (by decide) (by decide)⟩

/-- C10: for every `url` that is non-empty after trimming and parses (after
`zipped://` normalisation) to a URL `target`: when the scheme of `target` is
neither `http` nor `https`, the handler returns status 400 with body exactly
`Unsupported protocol`, no headers, and makes no outbound request; when the
scheme is exactly `http` or `https`, the handler does not return that
response (its status is not even 400). -/
theorem c10_protocol_gate (parseURL : Str → Option URL)
    (fetch : Request → Except Str FetchResponse) (u : Str) (target : URL)
    (hne : trim u ≠ []) (hparse : parseURL (normalise (trim u)) = some target) :
    ((target.scheme ≠ "http".toList ∧ target.scheme ≠ "https".toList) →
      handler parseURL fetch (eventWithUrl u) =
        ({ statusCode := 400, isBase64Encoded := none, headers := none,
           body := "Unsupported protocol".toList }, [])) ∧
    ((target.scheme = "http".toList ∨ target.scheme = "https".toList) →
      (handler parseURL fetch (eventWithUrl u)).1 ≠
          { statusCode := 400, isBase64Encoded := none, headers := none,
            body := "Unsupported protocol".toList } ∧
        (handler parseURL fetch (eventWithUrl u)).1.statusCode ≠ 400) := by
  have hiff : regexTest protocolRe target.protocol = true ↔
      target.scheme = "http".toList ∨ target.scheme = "https".toList := by
    rw [protocol_test, URL.protocol]
    have e1 : "http:".toList = "http".toList ++ [':'] := rfl
    have e2 : "https:".toList = "https".toList ++ [':'] := rfl
    rw [e1, e2, List.append_left_inj, List.append_left_inj]
  constructor
  · intro hs
    have hf : regexTest protocolRe target.protocol = false := by
      rw [← Bool.not_eq_true, hiff]
      exact fun h => h.elim hs.1 hs.2
    simp only [handler, rawUrl_eventWithUrl, isEmpty_false_of_ne hne, hparse, hf]
    rfl
  · intro hs
    have hv : Valid parseURL (eventWithUrl u) target :=
      ⟨by rwa [rawUrl_eventWithUrl], by rwa [rawUrl_eventWithUrl], hiff.mpr hs⟩
    have hst := handler_status_of_valid fetch hv
    constructor
    · intro heq
      rw [heq] at hst
      simp at hst
    · omega

set_option maxRecDepth 100000 in
/-- Witness for C10: `?url=file:///etc/passwd` is answered
with 400 `Unsupported protocol`, and `?url=https://example.com/page` is not. -/
theorem c10_protocol_gate_witness :
    trim "file:///etc/passwd".toList ≠ [] ∧
    sampleParseURL (normalise (trim "file:///etc/passwd".toList))
      = some ⟨"file".toList, "file:///etc/passwd".toList⟩ ∧
    handler sampleParseURL (htmlUpstream "<p>hi</p>".toList)
        (eventWithUrl "file:///etc/passwd".toList) =
      ({ statusCode := 400, isBase64Encoded := none, headers := none,
         body := "Unsupported protocol".toList }, []) ∧
    trim "https://example.com/page".toList ≠ [] ∧
    sampleParseURL (normalise (trim "https://example.com/page".toList)) = some sampleTarget ∧
    (handler sampleParseURL (htmlUpstream "<p>hi</p>".toList)
        (eventWithUrl "https://example.com/page".toList)).1.statusCode ≠ 400 :=
  ⟨by decide, by decide,
   (c10_protocol_gate sampleParseURL (htmlUpstream "<p>hi</p>".toList)
      "file:///etc/passwd".toList ⟨"file".toList, "file:///etc/passwd".toList⟩
      (by decide) (by decide)).1 ⟨by decide, by decide⟩,
   by decide, by decide,
   ((c10_protocol_gate sampleParseURL (htmlUpstream "<p>hi</p>".toList)
      "https://example.com/page".toList sampleTarget
      (by decide) (by decide)).2 (Or.inr rfl)).2⟩

/-! ## C11-C15: the fetch and the shape of the response -/

theorem protocol_test_scheme (t : URL) :
    regexTest protocolRe t.protocol = true ↔
      t.scheme = "http".toList ∨ t.scheme = "https".toList := by
  rw [protocol_test, URL.protocol]
  have e1 : "http:".toList = "http".toList ++ [':'] := rfl
  have e2 : "https:".toList = "https".toList ++ [':'] := rfl
  rw [e1, e2, List.append_left_inj, List.append_left_inj]

theorem handler_log_of_valid {parseURL : Str → Option URL}
    (fetch : Request → Except Str FetchResponse) {event : Event} {target : URL}
    (hv : Valid parseURL event target) :
    (handler parseURL fetch event).2 = [outbound target] := by
  obtain ⟨hraw, hparse, hproto⟩ := hv
  simp only [handler, isEmpty_false_of_ne hraw, hparse, hproto]
  cases fetch (outbound target) with
  | error m => rfl
  | ok res =>
    by_cases hct : includes (res.contentType.getD []) "text/html".toList = true
    · simp only [hct]
      cases res.text <;> rfl
    · simp only [hct]
      cases res.arrayBuffer <;> rfl

/-- C11: for every request that passes validation, if `fetch` rejects with an
error of message `m`, or it resolves and the body read that follows
(`res.text()` on the HTML branch, `res.arrayBuffer()` otherwise) rejects with
an error of message `m`, the handler returns status 500 with body exactly
`Proxy error: ` followed by `m` and no headers; the handler still returns a
response (with the one outbound request made), nothing is thrown. -/
theorem c11_failure_gives_500 (parseURL : Str → Option URL)
    (fetch : Request → Except Str FetchResponse) (event : Event) (target : URL) (m : Str)
    (hv : Valid parseURL event target)
    (hfail : fetch (outbound target) = .error m ∨
      ∃ res, fetch (outbound target) = .ok res ∧
        ((includes (res.contentType.getD []) "text/html".toList = true ∧
            res.text = .error m) ∨
         (includes (res.contentType.getD []) "text/html".toList = false ∧
            res.arrayBuffer = .error m))) :
    handler parseURL fetch event =
        ({ statusCode := 500, isBase64Encoded := none, headers := none,
           body := "Proxy error: ".toList ++ m }, [outbound target]) ∧
      startsWith (handler parseURL fetch event).1.body "Proxy error: ".toList = true := by
  obtain ⟨hraw, hparse, hproto⟩ := hv
  have key : handler parseURL fetch event =
      ({ statusCode := 500, isBase64Encoded := none, headers := none,
         body := "Proxy error: ".toList ++ m }, [outbound target]) := by
    rcases hfail with hf | ⟨res, hf, ⟨hct, hb⟩ | ⟨hct, hb⟩⟩
    · simp only [handler, isEmpty_false_of_ne hraw, hparse, hproto, hf]
      rfl
    · simp only [handler, isEmpty_false_of_ne hraw, hparse, hproto, hf, hct, hb]
      rfl
    · simp only [handler, isEmpty_false_of_ne hraw, hparse, hproto, hf, hct, hb]
      rfl
  rw [key]
  exact ⟨rfl, startsWith_append_self _ _⟩

set_option maxRecDepth 100000 in
/-- Witness for C11: `fetch` rejects with the message `fetch failed`. -/
theorem c11_failure_gives_500_witness :
    Valid sampleParseURL sampleEvent sampleTarget ∧
    failingUpstream "fetch failed".toList (outbound sampleTarget)
      = .error "fetch failed".toList ∧
    (handler sampleParseURL (failingUpstream "fetch failed".toList) sampleEvent =
        ({ statusCode := 500, isBase64Encoded := none, headers := none,
           body := "Proxy error: ".toList ++ "fetch failed".toList },
          [outbound sampleTarget]) ∧
      startsWith (handler sampleParseURL (failingUpstream "fetch failed".toList)
        sampleEvent).1.body "Proxy error: ".toList = true) :=
  ⟨by unfold Valid; decide, rfl,
    c11_failure_gives_500 sampleParseURL (failingUpstream "fetch failed".toList) sampleEvent
      sampleTarget "fetch failed".toList (by unfold Valid; decide) (Or.inl rfl)⟩

/-- C12: for every request that hits a client-error condition (the trimmed
`url` is empty, or the URL parser rejects it, or it parses to a scheme other
than `http` and `https`), the handler makes no outbound request, answers with
status 400, and returns the same result whatever the upstream is. -/
theorem c12_no_fetch_on_client_error (parseURL : Str → Option URL)
    (fetch : Request → Except Str FetchResponse) (event : Event)
    (h : rawUrl event = [] ∨ parseURL (normalise (rawUrl event)) = none ∨
      ∃ t, parseURL (normalise (rawUrl event)) = some t ∧
        t.scheme ≠ "http".toList ∧ t.scheme ≠ "https".toList) :
    (handler parseURL fetch event).2 = [] ∧
      (handler parseURL fetch event).1.statusCode = 400 ∧
      ∀ fetch2 : Request → Except Str FetchResponse,
        handler parseURL fetch2 event = handler parseURL fetch event := by
  have key : ∃ r : Response, r.statusCode = 400 ∧
      ∀ f : Request → Except Str FetchResponse, handler parseURL f event = (r, []) := by
    by_cases hraw : rawUrl event = []
    · refine ⟨plain 400 missingUrlMessage, rfl, fun f => ?_⟩
      simp only [handler, hraw, List.isEmpty_nil, if_true]
    · rcases h with h | h | ⟨t, hparse, hs1, hs2⟩
      · exact absurd h hraw
      · refine ⟨plain 400 "Invalid URL".toList, rfl, fun f => ?_⟩
        simp only [handler, isEmpty_false_of_ne hraw, h]
        rfl
      · have hf : regexTest protocolRe t.protocol = false := by
          rw [← Bool.not_eq_true, protocol_test_scheme]
          exact fun h => h.elim hs1 hs2
        refine ⟨plain 400 "Unsupported protocol".toList, rfl, fun f => ?_⟩
        simp only [handler, isEmpty_false_of_ne hraw, hparse, hf]
        rfl
  obtain ⟨r, hr, hall⟩ := key
  refine ⟨by rw [hall fetch], by rw [hall fetch]; exact hr, fun f => ?_⟩
  rw [hall f, hall fetch]

set_option maxRecDepth 100000 in
/-- Witness for C12: `?url=ftp://host/x`. -/
theorem c12_no_fetch_on_client_error_witness :
    sampleParseURL (normalise (rawUrl (eventWithUrl "ftp://host/x".toList)))
      = some ⟨"ftp".toList, "ftp://host/x".toList⟩ ∧
    ((handler sampleParseURL (htmlUpstream "<p>hi</p>".toList)
        (eventWithUrl "ftp://host/x".toList)).2 = [] ∧
      (handler sampleParseURL (htmlUpstream "<p>hi</p>".toList)
        (eventWithUrl "ftp://host/x".toList)).1.statusCode = 400 ∧
      ∀ fetch2 : Request → Except Str FetchResponse,
        handler sampleParseURL fetch2 (eventWithUrl "ftp://host/x".toList) =
          handler sampleParseURL (htmlUpstream "<p>hi</p>".toList)
            (eventWithUrl "ftp://host/x".toList)) :=
  ⟨by decide,
    c12_no_fetch_on_client_error sampleParseURL (htmlUpstream "<p>hi</p>".toList)
      (eventWithUrl "ftp://host/x".toList)
      (Or.inr (Or.inr ⟨⟨"ftp".toList, "ftp://host/x".toList⟩, by decide, by decide,
        by decide⟩))⟩

/-- C13: for every request that passes validation and every upstream (one that
answers with HTML, with anything else, or fails), the handler makes exactly
one outbound request: to `target.href`, with the single header
`user-agent: ZippedProxy/1.0 (+https://example.com)`, no method given (so a
GET) and no body. -/
theorem c13_one_outbound_request (parseURL : Str → Option URL)
    (fetch : Request → Except Str FetchResponse) (event : Event) (target : URL)
    (hv : Valid parseURL event target) :
    (handler parseURL fetch event).2 =
      [{ url := target.href, method := none,
         headers := [("user-agent".toList, "ZippedProxy/1.0 (+https://example.com)".toList)],
         body := none }] :=
  handler_log_of_valid fetch hv

set_option maxRecDepth 100000 in
/-- Witness for C13: `?url=https://example.com/page` with an upstream that
fails. -/
theorem c13_one_outbound_request_witness :
    Valid sampleParseURL sampleEvent sampleTarget ∧
    (handler sampleParseURL (failingUpstream "fetch failed".toList) sampleEvent).2 =
      [{ url := "https://example.com/page".toList, method := none,
         headers := [("user-agent".toList, "ZippedProxy/1.0 (+https://example.com)".toList)],
         body := none }] :=
  ⟨by unfold Valid; decide,
    c13_one_outbound_request sampleParseURL (failingUpstream "fetch failed".toList)
      sampleEvent sampleTarget (by unfold Valid; decide)⟩

/-- C14: for every request that passes validation and every upstream response
(of any status) whose content-type does not contain `text/html`, an absent
header counting as the empty string, and whose bytes are read, the handler
returns status 200, the flag `isBase64Encoded` set to true, and the single
header `Content-Type` equal to the upstream content-type value, which is the
empty string when the upstream header is absent. -/
theorem c14_binary_response_shape (parseURL : Str → Option URL)
    (fetch : Request → Except Str FetchResponse) (event : Event) (target : URL)
    (res : FetchResponse) (bytes : List Nat) (hv : Valid parseURL event target)
    (hfetch : fetch (outbound target) = .ok res)
    (hct : includes (res.contentType.getD []) "text/html".toList = false)
    (hbytes : res.arrayBuffer = .ok bytes) :
    (handler parseURL fetch event).1.statusCode = 200 ∧
      (handler parseURL fetch event).1.isBase64Encoded = some true ∧
      (handler parseURL fetch event).1.headers
        = some [("Content-Type".toList, res.contentType.getD [])] ∧
      (∀ v, res.contentType = some v →
        (handler parseURL fetch event).1.headers = some [("Content-Type".toList, v)]) ∧
      (res.contentType = none →
        (handler parseURL fetch event).1.headers = some [("Content-Type".toList, [])]) := by
  obtain ⟨hraw, hparse, hproto⟩ := hv
  have key : handler parseURL fetch event =
      ({ statusCode := 200, isBase64Encoded := some true,
         headers := some [("Content-Type".toList, res.contentType.getD [])],
         body := base64Encode bytes }, [outbound target]) := by
    simp only [handler, isEmpty_false_of_ne hraw, hparse, hproto, hfetch, hct, hbytes]
    rfl
  rw [key]
  refine ⟨rfl, rfl, rfl, fun v hv => ?_, fun hn => ?_⟩
  · simp only [hv, Option.getD_some]
  · simp only [hn, Option.getD_none]

set_option maxRecDepth 100000 in
/-- Witness for C14: an upstream answer of status 404 without content-type
header, carrying two bytes. -/
theorem c14_binary_response_shape_witness :
    Valid sampleParseURL sampleEvent sampleTarget ∧
    (handler sampleParseURL
        (upstreamOf { status := 404, contentType := none, text := .ok [],
                      arrayBuffer := .ok [1, 2] }) sampleEvent).1.statusCode = 200 ∧
    (handler sampleParseURL
        (upstreamOf { status := 404, contentType := none, text := .ok [],
                      arrayBuffer := .ok [1, 2] }) sampleEvent).1.isBase64Encoded
      = some true ∧
    (handler sampleParseURL
        (upstreamOf { status := 404, contentType := none, text := .ok [],
                      arrayBuffer := .ok [1, 2] }) sampleEvent).1.headers
      = some [("Content-Type".toList, [])] :=
  have h := c14_binary_response_shape sampleParseURL
    (upstreamOf { status := 404, contentType := none, text := .ok [],
                  arrayBuffer := .ok [1, 2] })
    sampleEvent sampleTarget
    { status := 404, contentType := none, text := .ok [], arrayBuffer := .ok [1, 2] } [1, 2]
    (by unfold Valid; decide) rfl (by decide) rfl
  ⟨by unfold Valid; decide, h.1, h.2.1, h.2.2.2.2 rfl⟩

/-- C15: for every request that passes validation and every upstream response
(of any status) whose content-type contains `text/html`, with or without
parameters, and whose text is read, the handler returns status 200, the single
header `Content-Type: text/html`, no `isBase64Encoded` flag, and as body the
rewritten text. -/
theorem c15_html_response_shape (parseURL : Str → Option URL)
    (fetch : Request → Except Str FetchResponse) (event : Event) (target : URL)
    (res : FetchResponse) (html : Str) (hv : Valid parseURL event target)
    (hfetch : fetch (outbound target) = .ok res)
    (hct : includes (res.contentType.getD []) "text/html".toList = true)
    (htext : res.text = .ok html) :
    (handler parseURL fetch event).1.statusCode = 200 ∧
      (handler parseURL fetch event).1.headers
        = some [("Content-Type".toList, "text/html".toList)] ∧
      (handler parseURL fetch event).1.isBase64Encoded = none ∧
      (handler parseURL fetch event).1.body = rewriteHtml html := by
  rw [handler_of_htmlReply hv ⟨res, hfetch, hct, htext⟩]
  exact ⟨rfl, rfl, rfl, rfl⟩

set_option maxRecDepth 100000 in
/-- Witness for C15: an upstream answer of status 503 served as
`application/xhtml; x=text/html; charset=utf-8`. -/
theorem c15_html_response_shape_witness :
    Valid sampleParseURL sampleEvent sampleTarget ∧
    includes "application/xhtml; x=text/html; charset=utf-8".toList "text/html".toList
      = true ∧
    ((handler sampleParseURL
        (upstreamOf { status := 503,
                      contentType := some "application/xhtml; x=text/html; charset=utf-8".toList,
                      text := .ok "<p>down</p>".toList, arrayBuffer := .ok [] })
        sampleEvent).1.statusCode = 200 ∧
      (handler sampleParseURL
        (upstreamOf { status := 503,
                      contentType := some "application/xhtml; x=text/html; charset=utf-8".toList,
                      text := .ok "<p>down</p>".toList, arrayBuffer := .ok [] })
        sampleEvent).1.headers = some [("Content-Type".toList, "text/html".toList)] ∧
      (handler sampleParseURL
        (upstreamOf { status := 503,
                      contentType := some "application/xhtml; x=text/html; charset=utf-8".toList,
                      text := .ok "<p>down</p>".toList, arrayBuffer := .ok [] })
        sampleEvent).1.isBase64Encoded = none ∧
      (handler sampleParseURL
        (upstreamOf { status := 503,
                      contentType := some "application/xhtml; x=text/html; charset=utf-8".toList,
                      text := .ok "<p>down</p>".toList, arrayBuffer := .ok [] })
        sampleEvent).1.body = rewriteHtml "<p>down</p>".toList) :=
  ⟨by unfold Valid; decide, by decide,
    c15_html_response_shape sampleParseURL _ sampleEvent sampleTarget
      { status := 503,
        contentType := some "application/xhtml; x=text/html; charset=utf-8".toList,
        text := .ok "<p>down</p>".toList, arrayBuffer := .ok [] }
      "<p>down</p>".toList (by unfold Valid; decide) rfl (by decide) rfl⟩

/-! ## C16: the badge step -/

theorem includes_iff_splits (h p : Str) :
    includes h p = true ↔ ∃ a b, h = a ++ p ++ b := by
  constructor
  · intro hin
    obtain ⟨a, b, hab, _⟩ := replaceFirst_splice p [] h hin
    exact ⟨a, b, hab⟩
  · rintro ⟨a, b, rfl⟩
    rw [List.append_assoc]
    exact includes_append_right a (includes_of_startsWith (startsWith_append_self p b))

/-- The string replace of line 48 splices at the first occurrence of `p`:
no occurrence of `p` begins further left. -/
theorem replaceFirst_splice_first (p r : Str) :
    ∀ h : Str, includes h p = true →
      ∃ a b, h = a ++ p ++ b ∧
        (∀ a2 b2, h = a2 ++ p ++ b2 → a.length ≤ a2.length) ∧
        replaceFirst p r h = a ++ r ++ b := by
  intro h
  induction h with
  | nil =>
    intro hin
    cases p with
    | nil => exact ⟨[], [], rfl, fun _ _ _ => Nat.zero_le _, by simp [replaceFirst]⟩
    | cons d p => simp [includes, startsWith] at hin
  | cons c s ih =>
    intro hin
    by_cases hs : startsWith (c :: s) p = true
    · refine ⟨[], (c :: s).drop p.length, ?_, fun _ _ _ => Nat.zero_le _, ?_⟩
      · simpa using eq_append_of_startsWith (c :: s) p hs
      · simp only [replaceFirst, hs, if_true, List.nil_append]
    · have hs2 : startsWith (c :: s) p = false := by simpa using hs
      have hin2 : includes s p = true := by simpa [includes, hs2] using hin
      obtain ⟨a, b, hab, hmin, hrep⟩ := ih hin2
      refine ⟨c :: a, b, by simp [hab], ?_, ?_⟩
      · intro a2 b2 h2
        cases a2 with
        | nil =>
          exfalso
          rw [List.nil_append] at h2
          rw [h2, startsWith_append_self] at hs2
          exact absurd hs2 (by decide)
        | cons d a3 =>
          simp only [List.cons_append, List.cons.injEq] at h2
          have := hmin a3 b2 h2.2
          simp only [List.length_cons]
          omega
      · simp only [replaceFirst, hs2, Bool.false_eq_true, if_false, hrep, List.cons_append]

/-- The badge step (lines 46-49) on a text `h`: a splice before the first
`</body>`, or an append. -/
theorem injectBadge_splice (h : Str) :
    ((∃ a b, h = a ++ "</body>".toList ++ b) →
      ∃ a b, h = a ++ "</body>".toList ++ b ∧
        (∀ a2 b2, h = a2 ++ "</body>".toList ++ b2 → a.length ≤ a2.length) ∧
        injectBadge h = a ++ badge ++ "</body>".toList ++ b) ∧
    ((¬ ∃ a b, h = a ++ "</body>".toList ++ b) → injectBadge h = h ++ badge) ∧
    (injectBadge h).length = h.length + badge.length := by
  have hyes : includes h "</body>".toList = true →
      ∃ a b, h = a ++ "</body>".toList ++ b ∧
        (∀ a2 b2, h = a2 ++ "</body>".toList ++ b2 → a.length ≤ a2.length) ∧
        injectBadge h = a ++ badge ++ "</body>".toList ++ b := by
    intro hin
    obtain ⟨a, b, hab, hmin, hrep⟩ :=
      replaceFirst_splice_first "</body>".toList (badge ++ "</body>".toList) h hin
    refine ⟨a, b, hab, hmin, ?_⟩
    rw [injectBadge, if_pos hin, hrep, List.append_assoc a badge]
  have hno : includes h "</body>".toList = false → injectBadge h = h ++ badge := by
    intro hin
    rw [injectBadge, hin]
    rfl
  refine ⟨fun hex => hyes ((includes_iff_splits _ _).mpr hex), fun hnex => hno ?_, ?_⟩
  · cases hin : includes h "</body>".toList with
    | false => rfl
    | true => exact absurd ((includes_iff_splits _ _).mp hin) hnex
  · cases hin : includes h "</body>".toList with
    | false => rw [hno hin, List.length_append]
    | true =>
      obtain ⟨a, b, hab, _, hbody⟩ := hyes hin
      rw [hbody, hab]
      simp only [List.length_append]
      omega

/-- C16: for every request that passes validation and every upstream HTML
text, let `h` be the text after script removal and CSP-meta removal.  When
`h` contains `</body>`, the returned body is `h` with the badge inserted
immediately before the first occurrence of `</body>` (everything after it,
later occurrences included, is unchanged); otherwise the returned body is `h`
followed by the badge.  In both cases the body is exactly as much longer
than `h` as the badge is long. -/
theorem c16_badge_step (parseURL : Str → Option URL)
    (fetch : Request → Except Str FetchResponse) (event : Event) (target : URL) (html : Str)
    (hv : Valid parseURL event target) (hr : HtmlReply fetch target html) :
    ((∃ a b, removeCspMeta (removeScripts html) = a ++ "</body>".toList ++ b) →
      ∃ a b, removeCspMeta (removeScripts html) = a ++ "</body>".toList ++ b ∧
        (∀ a2 b2, removeCspMeta (removeScripts html) = a2 ++ "</body>".toList ++ b2 →
          a.length ≤ a2.length) ∧
        (handler parseURL fetch event).1.body = a ++ badge ++ "</body>".toList ++ b) ∧
    ((¬ ∃ a b, removeCspMeta (removeScripts html) = a ++ "</body>".toList ++ b) →
      (handler parseURL fetch event).1.body = removeCspMeta (removeScripts html) ++ badge) ∧
    (handler parseURL fetch event).1.body.length
      = (removeCspMeta (removeScripts html)).length + badge.length := by
  rw [handler_of_htmlReply hv hr]
  exact injectBadge_splice (removeCspMeta (removeScripts html))

set_option maxRecDepth 100000 in
/-- Witness for C16: the document `<body>x</body>y</body>`, which has two
`</body>`, served for `?url=https://example.com/page`. -/
theorem c16_badge_step_witness :
    Valid sampleParseURL sampleEvent sampleTarget ∧
    HtmlReply (htmlUpstream "<body>x</body>y</body>".toList) sampleTarget
      "<body>x</body>y</body>".toList ∧
    (∃ a b, removeCspMeta (removeScripts "<body>x</body>y</body>".toList)
        = a ++ "</body>".toList ++ b ∧
      (∀ a2 b2, removeCspMeta (removeScripts "<body>x</body>y</body>".toList)
          = a2 ++ "</body>".toList ++ b2 → a.length ≤ a2.length) ∧
      (handler sampleParseURL (htmlUpstream "<body>x</body>y</body>".toList)
        sampleEvent).1.body = a ++ badge ++ "</body>".toList ++ b) ∧
    (handler sampleParseURL (htmlUpstream "<body>x</body>y</body>".toList)
        sampleEvent).1.body.length
      = (removeCspMeta (removeScripts "<body>x</body>y</body>".toList)).length
        + badge.length :=
  have h := c16_badge_step sampleParseURL (htmlUpstream "<body>x</body>y</body>".toList)
    sampleEvent sampleTarget "<body>x</body>y</body>".toList
    (by unfold Valid; decide) ⟨_, rfl, by decide, rfl⟩
  ⟨by unfold Valid; decide, ⟨_, rfl, by decide, rfl⟩,
    h.1 ⟨"<body>x".toList, "y</body>".toList, by decide⟩, h.2.2⟩

/-! ## C17: trimming -/

theorem trimEnd_append_blank (x r : Str) (hr : ∀ c ∈ r, isJsWhiteSpace c = true) :
    trimEnd (x ++ r) = trimEnd x := by
  unfold trimEnd
  rw [List.reverse_append,
    List.dropWhile_append_of_pos (fun c hc => hr c (List.mem_reverse.mp hc))]

theorem trim_blank_append (l u : Str) (hl : ∀ c ∈ l, isJsWhiteSpace c = true) :
    trim (l ++ u) = trim u := by
  unfold trim trimEnd
  rw [List.reverse_append, List.dropWhile_append]
  by_cases hu : (u.reverse.dropWhile isJsWhiteSpace).isEmpty = true
  · rw [if_pos hu]
    have h1 : u.reverse.dropWhile isJsWhiteSpace = [] := List.isEmpty_iff.mp hu
    have h2 : l.reverse.dropWhile isJsWhiteSpace = [] := by
      rw [List.dropWhile_eq_nil_iff]
      exact fun c hc => hl c (List.mem_reverse.mp hc)
    rw [h1, h2]
  · rw [if_neg hu, List.reverse_append, List.reverse_reverse]
    unfold trimStart
    rw [List.dropWhile_append_of_pos hl]

theorem trim_pad (l u r : Str) (hl : ∀ c ∈ l, isJsWhiteSpace c = true)
    (hr : ∀ c ∈ r, isJsWhiteSpace c = true) : trim (l ++ u ++ r) = trim u := by
  have h1 : trim (l ++ u ++ r) = trim (l ++ u) := by
    unfold trim
    rw [trimEnd_append_blank _ r hr]
  rw [h1, trim_blank_append l u hl]

theorem handler_congr_rawUrl (parseURL : Str → Option URL)
    (fetch : Request → Except Str FetchResponse) (e1 e2 : Event)
    (h : rawUrl e1 = rawUrl e2) : handler parseURL fetch e1 = handler parseURL fetch e2 := by
  simp only [handler, h]

/-- C17: for every string `u`, every URL parser and every upstream, padding
`url = u` with whitespace on the left and on the right (either side may be
empty) changes neither the response nor the outbound requests of the
handler. -/
theorem c17_url_is_trimmed (parseURL : Str → Option URL)
    (fetch : Request → Except Str FetchResponse) (l u r : Str)
    (hl : ∀ c ∈ l, isJsWhiteSpace c = true) (hr : ∀ c ∈ r, isJsWhiteSpace c = true) :
    handler parseURL fetch (eventWithUrl (l ++ u ++ r)) =
      handler parseURL fetch (eventWithUrl u) := by
  apply handler_congr_rawUrl
  rw [rawUrl_eventWithUrl, rawUrl_eventWithUrl, trim_pad l u r hl hr]

set_option maxRecDepth 100000 in
/-- Witness for C17: `https://example.com/page` between a space and a tab on
the left and a line feed on the right. -/
theorem c17_url_is_trimmed_witness :
    (∀ c ∈ [' ', Char.ofNat 9], isJsWhiteSpace c = true) ∧
    (∀ c ∈ [Char.ofNat 10], isJsWhiteSpace c = true) ∧
    handler sampleParseURL (htmlUpstream "<p>hi</p>".toList)
        (eventWithUrl ([' ', Char.ofNat 9] ++ "https://example.com/page".toList
          ++ [Char.ofNat 10])) =
      handler sampleParseURL (htmlUpstream "<p>hi</p>".toList)
        (eventWithUrl "https://example.com/page".toList) :=
  ⟨by decide, by decide,
    c17_url_is_trimmed sampleParseURL (htmlUpstream "<p>hi</p>".toList)
      [' ', Char.ofNat 9] "https://example.com/page".toList [Char.ofNat 10]
      (by decide) (by decide)⟩

/-! ## C18: clean documents -/

theorem cspMetaRe_items :
    cspMetaRe.items = "<meta".toList.map litI ++
      ([.greedyStar notGt] ++ "http-equiv=".toList.map litI ++ [.opt quote]
        ++ "Content-Security-Policy".toList.map litI
        ++ [.opt quote, .greedyStar notGt, litI '>']) := by
  simp [cspMetaRe]

theorem removeScripts_clean (html : Str) (h : includesCI html "<script".toList = false) :
    removeScripts html = html := by
  apply replaceScan_noMatch scriptRe [] rfl
  rw [scriptRe_items]
  exact matchesSomewhere_lits_false _ _ html (by decide) h

theorem removeCspMeta_clean (html : Str) (h : includesCI html "<meta".toList = false) :
    removeCspMeta html = html := by
  apply replaceScan_noMatch cspMetaRe [] rfl
  rw [cspMetaRe_items]
  exact matchesSomewhere_lits_false _ _ html (by decide) h

/-- C18: for every request that passes validation and every upstream HTML
text that contains neither `<script` nor `<meta` (case-insensitive), the
returned body is that text with only the badge added: inserted immediately
before the first `</body>` when the text has one, appended at the end
otherwise; every other character is where it was. -/
theorem c18_clean_document (parseURL : Str → Option URL)
    (fetch : Request → Except Str FetchResponse) (event : Event) (target : URL) (html : Str)
    (hv : Valid parseURL event target) (hr : HtmlReply fetch target html)
    (hs : includesCI html "<script".toList = false)
    (hm : includesCI html "<meta".toList = false) :
    ((∃ a b, html = a ++ "</body>".toList ++ b) →
      ∃ a b, html = a ++ "</body>".toList ++ b ∧
        (∀ a2 b2, html = a2 ++ "</body>".toList ++ b2 → a.length ≤ a2.length) ∧
        (handler parseURL fetch event).1.body = a ++ badge ++ "</body>".toList ++ b) ∧
    ((¬ ∃ a b, html = a ++ "</body>".toList ++ b) →
      (handler parseURL fetch event).1.body = html ++ badge) := by
  rw [handler_of_htmlReply hv hr]
  simp only [rewriteHtml, removeScripts_clean html hs, removeCspMeta_clean html hm]
  exact ⟨(injectBadge_splice html).1, (injectBadge_splice html).2.1⟩

set_option maxRecDepth 100000 in
/-- Witness for C18: the document `<html><body><p>hi</p></body></html>`
served for `?url=https://example.com/page`. -/
theorem c18_clean_document_witness :
    Valid sampleParseURL sampleEvent sampleTarget ∧
    HtmlReply (htmlUpstream "<html><body><p>hi</p></body></html>".toList) sampleTarget
      "<html><body><p>hi</p></body></html>".toList ∧
    includesCI "<html><body><p>hi</p></body></html>".toList "<script".toList = false ∧
    includesCI "<html><body><p>hi</p></body></html>".toList "<meta".toList = false ∧
    (∃ a b, "<html><body><p>hi</p></body></html>".toList = a ++ "</body>".toList ++ b ∧
      (∀ a2 b2, "<html><body><p>hi</p></body></html>".toList
          = a2 ++ "</body>".toList ++ b2 → a.length ≤ a2.length) ∧
      (handler sampleParseURL (htmlUpstream "<html><body><p>hi</p></body></html>".toList)
        sampleEvent).1.body = a ++ badge ++ "</body>".toList ++ b) :=
  ⟨by unfold Valid; decide, ⟨_, rfl, by decide, rfl⟩, by decide, by decide,
    (c18_clean_document sampleParseURL
      (htmlUpstream "<html><body><p>hi</p></body></html>".toList) sampleEvent sampleTarget
      "<html><body><p>hi</p></body></html>".toList
      (by unfold Valid; decide) ⟨_, rfl, by decide, rfl⟩ (by decide) (by decide)).1
      ⟨"<html><body><p>hi</p>".toList, "</html>".toList, by decide⟩⟩

/-! ## C1, amended: documents whose script elements are complete -/

theorem canon_eq_of_not_upper (c d : Char) (hd : d.toNat < 65 ∨ 90 < d.toNat)
    (h : canon c = d) : c = d := by
  unfold canon at h
  split at h
  · next hc =>
    exfalso
    have h1 : 97 ≤ c.toNat := hc.1
    have h2 : c.toNat ≤ 122 := hc.2
    have h3 : (Char.ofNat (c.toNat - 32)).toNat = d.toNat := by rw [h]
    have h4 : (Char.ofNat (c.toNat - 32)).toNat = c.toNat - 32 := by
      generalize c.toNat = n at h1 h2
      interval_cases n <;> rfl
    omega
  · exact h

theorem canon_eq_lt_iff (c : Char) : canon c = '<' ↔ c = '<' :=
  ⟨canon_eq_of_not_upper c '<' (Or.inl (by decide)), fun h => by rw [h]; decide⟩

theorem canon_eq_gt_iff (c : Char) : canon c = '>' ↔ c = '>' :=
  ⟨canon_eq_of_not_upper c '>' (Or.inl (by decide)), fun h => by rw [h]; decide⟩

/-- Literal items under `i` consume a text that equals the literal up to case. -/
theorem matchItems_lits_consume (l : Str) (rest : List Item) :
    ∀ (o s : Str), o.map canon = l.map canon →
      matchItems (l.map litI ++ rest) (o ++ s) = matchItems rest s := by
  induction l with
  | nil =>
    intro o s h
    cases o with
    | nil => rfl
    | cons c o => simp at h
  | cons d l ih =>
    intro o s h
    cases o with
    | nil => simp at h
    | cons c o =>
      simp only [List.map_cons, List.cons.injEq] at h
      simp only [List.map_cons, List.cons_append, litI, matchItems, h.1, beq_self_eq_true,
        if_true]
      exact ih o s h.2

/-- A pattern that begins with a literal fails on a text that begins with
another character. -/
theorem matchItems_lit_head_ne (d : Char) (items : List Item) (c : Char) (s : Str)
    (h : canon c ≠ canon d) : matchItems (litI d :: items) (c :: s) = none := by
  simp [litI, matchItems, h]

theorem runLazyStar_of_some (p : Char → Bool) (k : Str → Option Str) (s r : Str)
    (h : k s = some r) : runLazyStar p k s = some r := by
  cases s with
  | nil => simpa [runLazyStar] using h
  | cons c s => simp [runLazyStar, h]

/-- The lazy star walks over a stretch of text at no position of which the
continuation matches. -/
theorem runLazyStar_skip (p : Char → Bool) (k : Str → Option Str) (z : Str) :
    ∀ a : Str, (∀ x ∈ a, p x = true) →
      (∀ pre x post, a = pre ++ x :: post → k (x :: (post ++ z)) = none) →
      runLazyStar p k (a ++ z) = runLazyStar p k z := by
  intro a
  induction a with
  | nil => intro _ _; rfl
  | cons x a ih =>
    intro hp hk
    have h0 : k (x :: (a ++ z)) = none := hk [] x a rfl
    have hx : p x = true := hp x (List.mem_cons_self _ _)
    have e : runLazyStar p k (x :: (a ++ z)) =
        (match k (x :: (a ++ z)) with
          | some r => some r
          | none => if p x = true then runLazyStar p k (a ++ z) else none) := rfl
    rw [List.cons_append, e, h0]
    simp only [hx, if_true]
    exact ih (fun y hy => hp y (List.mem_cons_of_mem _ hy))
      (fun pre y post e => hk (x :: pre) y post (by rw [e]; rfl))

theorem replaceScan_skip (re : Regex) (rep : Str) (live : Bool) (y : Str) :
    ∀ x : Str, replaceScan re rep x.length live (x ++ y) = replaceScan re rep 0 live y := by
  intro x
  induction x with
  | nil => rfl
  | cons c x ih =>
    simp only [List.length_cons, List.cons_append, replaceScan]
    exact ih

/-- A match that consumes exactly `c :: s` is replaced, and the scan goes on
after it. -/
theorem replaceScan_match (re : Regex) (rep : Str) (hg : re.global = true)
    (ha : re.anchored = false) (c : Char) (s z : Str)
    (h : matchItems re.items (c :: (s ++ z)) = some z) :
    replaceScan re rep 0 true (c :: (s ++ z)) = rep ++ replaceScan re rep 0 true z := by
  have hm : matchLen re (c :: (s ++ z)) = some (s.length + 1) := by
    rw [matchLen, h, Option.map_some']
    congr 1
    simp only [List.length_cons, List.length_append]
    omega
  rw [replaceScan, hm]
  simp only [hg, ha, Bool.not_false, Bool.and_self]
  rw [replaceScan_skip]

/-- The scan copies a stretch of text at no position of which the pattern
matches. -/
theorem replaceScan_copy (re : Regex) (rep : Str) (ha : re.anchored = false) (z : Str) :
    ∀ u : Str, (∀ pre x post, u = pre ++ x :: post →
        matchItems re.items (x :: (post ++ z)) = none) →
      replaceScan re rep 0 true (u ++ z) = u ++ replaceScan re rep 0 true z := by
  intro u
  induction u with
  | nil => intro _; rfl
  | cons x u ih =>
    intro hk
    have h0 : matchLen re (x :: (u ++ z)) = none := by
      rw [matchLen, hk [] x u rfl]; rfl
    rw [List.cons_append, replaceScan, h0]
    simp only [ha, Bool.not_false, List.cons_append]
    rw [ih (fun pre y post e => hk (x :: pre) y post (by rw [e]; rfl))]


theorem canon_script_close :
    "</script>".toList.map canon = '<' :: "/SCRIPT>".toList := by decide

theorem lt_not_mem_script_close : '<' ∉ "/SCRIPT>".toList := by decide

/-- Inside the content of a well-formed script element the closing tag does
not match. -/
theorem no_close_in_content (c e rest : Str)
    (hc : includesCI c "</script>".toList = false)
    (he : e.map canon = "</script>".toList.map canon) :
    ∀ pre x post, c = pre ++ x :: post →
      matchItems ("</script>".toList.map litI) (x :: (post ++ (e ++ rest))) = none := by
  intro pre x post hsplit
  cases hq : matchItems ("</script>".toList.map litI) (x :: (post ++ (e ++ rest))) with
  | none => rfl
  | some r =>
    exfalso
    rw [← List.append_nil (List.map litI _)] at hq
    have h1 := startsWith_of_matchItems_lits _ _ _ _ hq
    rw [List.map_cons, List.map_append, List.map_append, he, canon_script_close,
      List.cons_append, ← List.cons_append,
      startsWith_cons_append_stop '<' _ lt_not_mem_script_close] at h1
    have h2 : includes (c.map canon) ('<' :: "/SCRIPT>".toList) = true := by
      rw [hsplit, List.map_append, List.map_cons]
      exact includes_append_right _ (includes_of_startsWith h1)
    unfold includesCI at hc
    rw [canon_script_close, h2] at hc
    exact absurd hc (by decide)

/-- The pattern of line 41, tried at the start of a well-formed script
element, matches exactly that element. -/
theorem matchItems_script_piece (o a c e rest : Str)
    (ho : o.map canon = "<script".toList.map canon) (ha : ∀ x ∈ a, x ≠ '>')
    (hc : includesCI c "</script>".toList = false)
    (he : e.map canon = "</script>".toList.map canon) :
    matchItems scriptRe.items (o ++ (a ++ ('>' :: (c ++ (e ++ rest))))) = some rest := by
  rw [scriptRe_items, matchItems_lits_consume _ _ o _ ho]
  show runLazyStar anyChar
      (matchItems (litI '>' :: .lazyStar anyChar :: "</script>".toList.map litI))
      (a ++ ('>' :: (c ++ (e ++ rest)))) = some rest
  rw [runLazyStar_skip anyChar _ _ a (fun _ _ => rfl)
    (fun pre x post hsplit => matchItems_lit_head_ne '>' _ x _ (fun hx =>
      ha x (by rw [hsplit]; simp) ((canon_eq_gt_iff x).mp (by rw [hx]; decide))))]
  apply runLazyStar_of_some
  show runLazyStar anyChar (matchItems ("</script>".toList.map litI)) (c ++ (e ++ rest))
    = some rest
  rw [runLazyStar_skip anyChar _ _ c (fun _ _ => rfl) (no_close_in_content c e rest hc he)]
  apply runLazyStar_of_some
  rw [← List.append_nil (List.map litI _), matchItems_lits_consume _ _ e _ he]
  rfl


theorem complete_elim {s : ScriptElement} (h : s.complete = true) :
    s.o.map canon = "<script".toList.map canon ∧ (∀ y ∈ s.a, y ≠ '>') ∧
      includesCI s.c "</script>".toList = false ∧
      s.e.map canon = "</script>".toList.map canon := by
  simp only [ScriptElement.complete, Bool.and_eq_true, beq_iff_eq, List.all_eq_true,
    bne_iff_ne, ne_eq, Bool.not_eq_true'] at h
  exact ⟨h.1.1.1, h.1.1.2, h.1.2, h.2⟩

/-- The script-removal pass removes exactly the script elements of a document
whose remaining text contains no `<script`. -/
theorem removeScripts_withScripts (last : Str) :
    ∀ d : List (Str × ScriptElement), (∀ ts ∈ d, ts.2.complete = true) →
      includesCI (withoutScripts d last) "<script".toList = false →
      removeScripts (withScripts d last) = withoutScripts d last := by
  intro d
  induction d with
  | nil => intro _ h; exact removeScripts_clean last h
  | cons ts d ih =>
    intro hc hno
    obtain ⟨t, s⟩ := ts
    obtain ⟨ho, ha, hcont, he⟩ := complete_elim (hc (t, s) (List.mem_cons_self _ _))
    have hno2 : includes ((t ++ withoutScripts d last).map canon) ('<' :: "SCRIPT".toList)
        = false := by
      have := hno
      unfold includesCI at this
      rw [canon_script_open] at this
      exact this
    rw [List.map_append] at hno2
    obtain ⟨hnt, hnrest⟩ := includes_false_of_append hno2
    have ih2 := ih (fun q hq => hc q (List.mem_cons_of_mem _ hq))
      (by unfold includesCI; rw [canon_script_open]; exact hnrest)
    unfold removeScripts regexReplace at ih2 ⊢
    show replaceScan scriptRe [] 0 true (t ++ (s.render ++ withScripts d last))
      = t ++ withoutScripts d last
    obtain ⟨o0, o1, ho01⟩ : ∃ o0 o1, s.o = o0 :: o1 := by
      cases hso : s.o with
      | nil => rw [hso] at ho; exact absurd ho (by decide)
      | cons o0 o1 => exact ⟨o0, o1, rfl⟩
    have ho0 : o0 = '<' := by
      rw [ho01, canon_script_open, List.map_cons, List.cons.injEq] at ho
      exact (canon_eq_lt_iff o0).mp ho.1
    have hrender : s.render ++ withScripts d last
        = '<' :: ((o1 ++ (s.a ++ ('>' :: (s.c ++ s.e)))) ++ withScripts d last) := by
      rw [ScriptElement.render, ho01, ho0]
      rfl
    have hm := matchItems_script_piece s.o s.a s.c s.e (withScripts d last) ho ha hcont he
    have hm2 : matchItems scriptRe.items
        ('<' :: ((o1 ++ (s.a ++ ('>' :: (s.c ++ s.e)))) ++ withScripts d last))
        = some (withScripts d last) := by
      rw [← hm, ho01, ho0]
      simp only [List.cons_append, List.append_assoc]
    rw [replaceScan_copy scriptRe [] rfl _ t, hrender,
      replaceScan_match scriptRe [] rfl rfl _ _ _ hm2, ih2]
    · rfl
    · intro pre x post hsplit
      cases hq : matchItems scriptRe.items (x :: (post ++ (s.render ++ withScripts d last)))
          with
      | none => rfl
      | some r =>
        exfalso
        rw [scriptRe_items] at hq
        have h1 := startsWith_of_matchItems_lits _ _ _ _ hq
        rw [hrender, canon_script_open, List.map_cons, List.map_append, List.map_cons,
          canon_lt, ← List.cons_append,
          startsWith_cons_append_stop '<' _ lt_not_mem_script] at h1
        have h2 : includes (t.map canon) ('<' :: "SCRIPT".toList) = true := by
          rw [hsplit, List.map_append, List.map_cons]
          exact includes_append_right _ (includes_of_startsWith h1)
        rw [h2] at hnt
        exact absurd hnt (by decide)


theorem startsWith_nil (x : Str) : startsWith x [] = true := by cases x <;> rfl

theorem scan_nil (re : Regex) : replaceScan re [] 0 true [] = [] := by
  rw [replaceScan]
  cases matchLen re [] <;> rfl

theorem replaceScan_drop (re : Regex) (rep : Str) (live : Bool) :
    ∀ (n : Nat) (t : Str), n ≤ t.length →
      replaceScan re rep n live t = replaceScan re rep 0 live (t.drop n) := by
  intro n
  induction n with
  | zero => intro t _; rfl
  | succ n ih =>
    intro t hn
    cases t with
    | nil => simp at hn
    | cons x t =>
      rw [replaceScan, List.drop_succ_cons]
      exact ih t (by simpa using hn)

/-- One step of the scan with an empty replacement: the first character is
copied, or a match that begins there is dropped. -/
theorem scan_cons_cases (re : Regex) (hg : re.global = true) (ha : re.anchored = false)
    (c : Char) (t : Str) :
    replaceScan re [] 0 true (c :: t) = c :: replaceScan re [] 0 true t ∨
      ∃ n, matchLen re (c :: t) = some (n + 1) ∧ n ≤ t.length ∧
        replaceScan re [] 0 true (c :: t) = replaceScan re [] 0 true (t.drop n) := by
  cases hm : matchLen re (c :: t) with
  | none =>
    left
    rw [replaceScan, hm]
    simp only [ha, Bool.not_false]
  | some k =>
    cases k with
    | zero =>
      left
      rw [replaceScan, hm]
      simp only [hg, ha, Bool.not_false, Bool.and_self, List.nil_append]
    | succ n =>
      right
      have hn : n ≤ t.length := by
        unfold matchLen at hm
        cases hq : matchItems re.items (c :: t) with
        | none => rw [hq] at hm; exact absurd hm (by simp)
        | some r =>
          rw [hq, Option.map_some', Option.some.injEq, List.length_cons] at hm
          omega
      refine ⟨n, rfl, hn, ?_⟩
      rw [replaceScan, hm]
      simp only [hg, ha, Bool.not_false, Bool.and_self, List.nil_append]
      exact replaceScan_drop re [] true n t hn

/-- Where the output of the scan begins with a text `q`, the input begins with
a part of `q` that is either all of `q` or is directly followed by a dropped
match. -/
theorem scan_prefix_source (re : Regex) (hg : re.global = true) (ha : re.anchored = false) :
    ∀ (q s : Str), startsWith ((replaceScan re [] 0 true s).map canon) q = true →
      ∃ j, j ≤ q.length ∧ startsWith (s.map canon) (q.take j) = true ∧
        (j = q.length ∨ ∃ n, matchLen re (s.drop j) = some (n + 1)) := by
  intro q
  induction q with
  | nil => intro s _; exact ⟨0, Nat.le_refl _, startsWith_nil _, Or.inl rfl⟩
  | cons y q ih =>
    intro s h
    cases s with
    | nil =>
      rw [scan_nil] at h
      exact absurd h (by simp [startsWith])
    | cons c t =>
      rcases scan_cons_cases re hg ha c t with hcopy | ⟨n, hm, _, _⟩
      · rw [hcopy, List.map_cons] at h
        simp only [startsWith, Bool.and_eq_true] at h
        obtain ⟨j, hj, hst, hor⟩ := ih t h.2
        refine ⟨j + 1, by simpa using hj, ?_, ?_⟩
        · simp only [List.map_cons, List.take_succ_cons, startsWith, h.1, hst, Bool.and_self]
        · rcases hor with hor | hor
          · left; simp [hor]
          · right; simpa using hor
      · exact ⟨0, Nat.zero_le _, startsWith_nil _, Or.inr ⟨n, hm⟩⟩

theorem includes_false_of_drop {s p : Str} (n : Nat) (h : includes s p = false) :
    includes (s.drop n) p = false := by
  have h2 := h
  rw [← List.take_append_drop n s] at h2
  exact (includes_false_of_append h2).2

theorem metaFollowsOpenScript_tail {c : Char} {s : Str}
    (h : metaFollowsOpenScript (c :: s) = false) : metaFollowsOpenScript s = false := by
  rw [metaFollowsOpenScript, Bool.or_eq_false_iff] at h
  exact h.2

theorem metaFollowsOpenScript_drop :
    ∀ (n : Nat) (s : Str), metaFollowsOpenScript s = false →
      metaFollowsOpenScript (s.drop n) = false := by
  intro n
  induction n with
  | zero => intro s h; exact h
  | succ n ih =>
    intro s h
    cases s with
    | nil => exact h
    | cons c s => exact ih s (metaFollowsOpenScript_tail h)


theorem matchItems_isSome_of_matchLen {re : Regex} {s : Str} {k : Nat}
    (h : matchLen re s = some k) : (matchItems re.items s).isSome = true := by
  unfold matchLen at h
  cases hq : matchItems re.items s with
  | none => rw [hq] at h; exact absurd h (by simp)
  | some r => rfl

/-- The CSP-meta pass creates no `<script` in a text that has none and in which
no CSP meta tag directly follows an unfinished `<script`. -/
theorem removeCspMeta_no_script :
    ∀ (n : Nat) (s : Str), s.length ≤ n →
      includes (s.map canon) ('<' :: "SCRIPT".toList) = false →
      metaFollowsOpenScript s = false →
      includes ((replaceScan cspMetaRe [] 0 true s).map canon) ('<' :: "SCRIPT".toList)
        = false := by
  intro n
  induction n with
  | zero =>
    intro s hlen _ _
    have : s = [] := List.length_eq_zero.mp (Nat.le_zero.mp hlen)
    rw [this, scan_nil]
    rfl
  | succ n ih =>
    intro s hlen hinc hmeta
    cases s with
    | nil => rw [scan_nil]; rfl
    | cons c t =>
      have hlen2 : t.length ≤ n := by simpa using hlen
      rw [List.map_cons, includes_cons, Bool.or_eq_false_iff] at hinc
      rcases scan_cons_cases cspMetaRe rfl rfl c t with hcopy | ⟨k, _, hk, hdrop⟩
      · rw [hcopy, List.map_cons, includes_cons, Bool.or_eq_false_iff]
        refine ⟨?_, ih t hlen2 hinc.2 (metaFollowsOpenScript_tail hmeta)⟩
        cases hst : startsWith (canon c :: (replaceScan cspMetaRe [] 0 true t).map canon)
            ('<' :: "SCRIPT".toList) with
        | false => rfl
        | true =>
          exfalso
          simp only [startsWith, Bool.and_eq_true] at hst
          obtain ⟨j, hj, hpre, hor⟩ :=
            scan_prefix_source cspMetaRe rfl rfl "SCRIPT".toList t hst.2
          have hlen6 : "SCRIPT".toList.length = 6 := rfl
          by_cases hj6 : j = 6
          · rw [hj6, ← hlen6, List.take_length] at hpre
            have : startsWith (canon c :: t.map canon) ('<' :: "SCRIPT".toList) = true := by
              simp only [startsWith, hst.1, hpre, Bool.and_self]
            rw [this] at hinc
            exact absurd hinc.1 (by decide)
          · have hjlt : j < 6 := by omega
            obtain ⟨m, hm⟩ : ∃ m, matchLen cspMetaRe (t.drop j) = some (m + 1) := by
              rcases hor with hor | hor
              · exact absurd (hor.trans hlen6) hj6
              · exact hor
            have hsome := matchItems_isSome_of_matchLen hm
            have : metaFollowsOpenScript (c :: t) = true := by
              rw [metaFollowsOpenScript, Bool.or_eq_true]
              left
              rw [List.any_eq_true]
              refine ⟨j, List.mem_range.mpr hjlt, ?_⟩
              rw [canon_script_open, List.take_succ_cons, List.map_cons, List.drop_succ_cons,
                hsome, Bool.and_true]
              simp only [startsWith, hst.1, hpre, Bool.and_self]
            rw [this] at hmeta
            exact absurd hmeta (by decide)
      · rw [hdrop]
        refine ih (t.drop k) (by rw [List.length_drop]; omega) ?_
          (metaFollowsOpenScript_drop k t (metaFollowsOpenScript_tail hmeta))
        rw [List.map_drop]
        exact includes_false_of_drop k hinc.2

/-- C1, amended: for every request that passes validation and every upstream
HTML body made of stretches of text and complete script elements (each one
`<script`, attributes without `>`, `>`, a content without `</script>`, and
`</script>`, all case-insensitive, as is `<script>alert(1)</script>`), if the
text that remains once these elements are taken out contains no `<script`
(case-insensitive) and no CSP meta tag in it directly follows an unfinished
`<script` (a `<` and at most five letters of `script`), then line 41 removes
exactly the script elements and the body returned by the handler contains no
`<script` (case-insensitive). -/
theorem c1_complete_scripts_removed (parseURL : Str → Option URL)
    (fetch : Request → Except Str FetchResponse) (event : Event) (target : URL)
    (d : List (Str × ScriptElement)) (last : Str)
    (hv : Valid parseURL event target) (hr : HtmlReply fetch target (withScripts d last))
    (hc : ∀ ts ∈ d, ts.2.complete = true)
    (hs : includesCI (withoutScripts d last) "<script".toList = false)
    (hm : metaFollowsOpenScript (withoutScripts d last) = false) :
    (handler parseURL fetch event).1.body
        = injectBadge (removeCspMeta (withoutScripts d last)) ∧
      includesCI (handler parseURL fetch event).1.body "<script".toList = false := by
  rw [handler_of_htmlReply hv hr]
  simp only [rewriteHtml, removeScripts_withScripts last d hc hs, true_and]
  apply includesCI_injectBadge
  have hs2 := hs
  unfold includesCI at hs2 ⊢
  rw [canon_script_open] at hs2 ⊢
  exact removeCspMeta_no_script _ _ (Nat.le_refl _) hs2 hm

set_option maxRecDepth 1000000 in
/-- Witness for the amended C1: the sample document, which contains
`<script>alert(1)</script>`, two more script elements and a CSP meta tag. -/
theorem c1_complete_scripts_removed_witness :
    Valid sampleParseURL sampleEvent sampleTarget ∧
    HtmlReply (htmlUpstream (withScripts sampleDocument sampleDocumentEnd)) sampleTarget
      (withScripts sampleDocument sampleDocumentEnd) ∧
    (∀ ts ∈ sampleDocument, ts.2.complete = true) ∧
    includesCI (withoutScripts sampleDocument sampleDocumentEnd) "<script".toList = false ∧
    metaFollowsOpenScript (withoutScripts sampleDocument sampleDocumentEnd) = false ∧
    includes (withScripts sampleDocument sampleDocumentEnd)
      "<script>alert(1)</script>".toList = true ∧
    ((handler sampleParseURL (htmlUpstream (withScripts sampleDocument sampleDocumentEnd))
        sampleEvent).1.body
        = injectBadge (removeCspMeta (withoutScripts sampleDocument sampleDocumentEnd)) ∧
      includesCI (handler sampleParseURL
        (htmlUpstream (withScripts sampleDocument sampleDocumentEnd)) sampleEvent).1.body
        "<script".toList = false) :=
  ⟨by unfold Valid; decide, ⟨_, rfl, by decide, rfl⟩, by decide, by decide, by decide,
    by decide,
    c1_complete_scripts_removed sampleParseURL
      (htmlUpstream (withScripts sampleDocument sampleDocumentEnd)) sampleEvent sampleTarget
      sampleDocument sampleDocumentEnd (by unfold Valid; decide) ⟨_, rfl, by decide, rfl⟩
      (by decide) (by decide) (by decide)⟩

end Proxy
